import Mathlib

/-! Audio synthesis core of the C demo engine.

Shallow embedding of the note-trigger / buffer-fill code of `av_glut.c` (the simple
variant) and `demo.c` (the richer FM variant).

* C `double` values are elements of an arbitrary linearly ordered field `α` with a floor
  function (`ℚ` for evaluation, `ℝ` for the analytic statements); rounding is not modelled.
* The libm functions `sin`, `exp` and the constant `M_PI` are parameters of the
  definitions that use them.
* C `int` values are `Int`; every `int` operation embedded here stays far inside the 32-bit
  range, so no reduction modulo `2^32` is needed.
* The global `g_as` is passed explicitly; a buffer-fill pass returns the new state together
  with the list of samples `out[0], ..., out[N-1]` it wrote.
-/

section Common

variable {α : Type} [LinearOrderedField α] [FloorRing α]

/-- The sample rate `sr = 44100.0` used throughout both programs. -/
def sr : α := 44100

/-- C conversion of a `double` to an integer type: the fractional part is discarded
(truncation toward zero). -/
def double_to_int (x : α) : Int :=
  if 0 ≤ x then Int.floor x else Int.ceil x

/-- Range of `int16_t`: the conversion `(int16_t)x` is defined exactly when the truncated
value lies in this range. -/
def in_int16 (z : Int) : Prop := -32768 ≤ z ∧ z ≤ 32767

instance (z : Int) : Decidable (in_int16 z) := by
  unfold in_int16; infer_instance

end Common

namespace AvGlut

variable {α : Type} [LinearOrderedField α] [FloorRing α]

/-- The record `typedef struct { double phase,freq,vol; int samples_left; } AudioState;`
of `av_glut.c`. -/
structure AudioState (α : Type) where
  phase : α
  freq : α
  vol : α
  samples_left : Int
deriving DecidableEq, Repr

/-- Note length `tot = (int)(0.12*sr)` of `av_glut.c`. -/
def tot : Int := double_to_int ((0.12 : α) * (sr : α))

/-- The envelope expression of `AQCallback` in `av_glut.c`:
`atk=200, rel=200, tot=(int)(0.12*sr), age=tot-g_as.samples_left;`
`env = (age<atk) ? (double)age/atk : (g_as.samples_left<rel ? (double)g_as.samples_left/rel : 1.0)`. -/
def env (samples_left : Int) : α :=
  let atk : Int := 200
  let rel : Int := 200
  let age : Int := tot (α := α) - samples_left
  if age < atk then (age : α) / (atk : α)
  else if samples_left < rel then (samples_left : α) / (rel : α)
  else 1

/-- The wrapped phase advance `g_as.phase += step; if (g_as.phase>2.0*M_PI) g_as.phase-=2.0*M_PI;`. -/
def advance (M_PI : α) (phase step : α) : α :=
  let p := phase + step
  if p > 2 * M_PI then p - 2 * M_PI else p

/-- The `double` value that is converted to `int16_t` for one sounding sample:
`sin(g_as.phase)*32767.0*g_as.vol*0.6*env`, with `phase` already advanced. -/
def sample_value (sin : α → α) (phase vol e : α) : α :=
  sin phase * 32767 * vol * 0.6 * e

/-- The then-branch of the loop body of `AQCallback` (taken when `g_as.samples_left>0`):
envelope, phase advance, sample, countdown. -/
def sounding (sin : α → α) (M_PI : α) (step : α) (s : AudioState α) : AudioState α × Int :=
  let e : α := env s.samples_left
  let phase := advance M_PI s.phase step
  let out := double_to_int (sample_value sin phase s.vol e)
  ({ s with phase := phase, samples_left := s.samples_left - 1 }, out)

/-- One iteration of the loop body of `AQCallback`:
`if(g_as.samples_left>0){ ... } else { out[i]=0; }`. -/
def loop_body (sin : α → α) (M_PI : α) (step : α) (s : AudioState α) : AudioState α × Int :=
  if s.samples_left > 0 then sounding sin M_PI step s else (s, 0)

/-- The loop `for(int i=0;i<N;i++){ ... }` of `AQCallback`, with `step` fixed before it. -/
def AQCallback_loop (sin : α → α) (M_PI : α) (step : α) :
    Nat → AudioState α → AudioState α × List Int
  | 0, s => (s, [])
  | n + 1, s =>
    let r := loop_body sin M_PI step s
    let rest := AQCallback_loop sin M_PI step n r.1
    (rest.1, r.2 :: rest.2)

/-- The buffer-fill callback `AQCallback` of `av_glut.c` for a buffer of `N` samples:
`step=(2.0*M_PI*g_as.freq)/sr` is computed once, then the loop runs `N` times. -/
def AQCallback (sin : α → α) (M_PI : α) (N : Nat) (s : AudioState α) :
    AudioState α × List Int :=
  AQCallback_loop sin M_PI ((2 * M_PI * s.freq) / sr) N s

/-- The effect of `audio_init` on `g_as`:
`memset(&g_as,0,sizeof(g_as)); g_as.freq=220.0; g_as.vol=0.3; g_as.samples_left=0;`. -/
def audio_init : AudioState α :=
  { phase := 0, freq := 220, vol := 0.3, samples_left := 0 }

/-- The trigger of `av_glut.c`:
`g_as.freq=freq; g_as.vol=vol; g_as.samples_left=(int)(0.12*44100.0);`. -/
def audio_beep (freq vol : α) (s : AudioState α) : AudioState α :=
  { s with freq := freq, vol := vol, samples_left := double_to_int ((0.12 : α) * 44100) }

end AvGlut

namespace Demo

variable {α : Type} [LinearOrderedField α] [FloorRing α]

/-- The record `AudioState` of `demo.c`, with the extra modulator phase. -/
structure AudioState (α : Type) where
  phase : α
  freq : α
  vol : α
  samples_left : Int
  mod_phase : α
deriving DecidableEq, Repr

/-- Note length `tot = (int)(0.25 * sr)` of `demo.c`. -/
def tot : Int := double_to_int ((0.25 : α) * (sr : α))

/-- The envelope generator of `AQCallback` in `demo.c`:
`age = tot - g_as.samples_left; env = 1.0;`
`if(age < 100) env = (double)age / 100.0; else env = exp(-15.0 * ((double)(age - 100) / sr));`. -/
def env (exp : α → α) (samples_left : Int) : α :=
  let age : Int := tot (α := α) - samples_left
  if age < 100 then (age : α) / 100
  else exp (-15 * (((age - 100 : Int) : α) / sr))

/-- The wrap `if (p > 2.0 * M_PI) p -= 2.0 * M_PI;` applied after `p += step`. -/
def advance (M_PI : α) (phase step : α) : α :=
  let p := phase + step
  if p > 2 * M_PI then p - 2 * M_PI else p

/-- The hard clip `if (raw_wave > 0.8) raw_wave = 0.8; if (raw_wave < -0.8) raw_wave = -0.8;`. -/
def hard_clip (raw_wave : α) : α :=
  let w := if raw_wave > 0.8 then 0.8 else raw_wave
  if w < -0.8 then -0.8 else w

/-- The clipped FM carrier: `modulation = sin(mod_phase) * 3.0 * env;`
`raw_wave = sin(phase + modulation)`, then the hard clip. -/
def raw_wave (sin : α → α) (phase mod_phase e : α) : α :=
  let modulation := sin mod_phase * 3 * e
  hard_clip (sin (phase + modulation))

/-- The `double` value converted to `int16_t`: `raw_wave * 32767.0 * g_as.vol * env`. -/
def sample_value (sin : α → α) (phase mod_phase vol e : α) : α :=
  raw_wave sin phase mod_phase e * 32767 * vol * e

/-- The then-branch of the loop body of `AQCallback` in `demo.c`. -/
def sounding (sin exp : α → α) (M_PI : α) (step mod_step : α) (s : AudioState α) :
    AudioState α × Int :=
  let e : α := env exp s.samples_left
  let phase := advance M_PI s.phase step
  let mod_phase := advance M_PI s.mod_phase mod_step
  let out := double_to_int (sample_value sin phase mod_phase s.vol e)
  ({ s with phase := phase, mod_phase := mod_phase, samples_left := s.samples_left - 1 }, out)

/-- One iteration of the loop body: `if(g_as.samples_left > 0){ ... } else { out[i] = 0; }`. -/
def loop_body (sin exp : α → α) (M_PI : α) (step mod_step : α) (s : AudioState α) :
    AudioState α × Int :=
  if s.samples_left > 0 then sounding sin exp M_PI step mod_step s else (s, 0)

/-- The loop `for(int i = 0; i < N; i++){ ... }` of `AQCallback` in `demo.c`. -/
def AQCallback_loop (sin exp : α → α) (M_PI : α) (step mod_step : α) :
    Nat → AudioState α → AudioState α × List Int
  | 0, s => (s, [])
  | n + 1, s =>
    let r := loop_body sin exp M_PI step mod_step s
    let rest := AQCallback_loop sin exp M_PI step mod_step n r.1
    (rest.1, r.2 :: rest.2)

/-- The buffer-fill callback `AQCallback` of `demo.c` for a buffer of `N` samples:
`step = (2.0 * M_PI * g_as.freq) / sr; mod_step = step * 2.0;` then the loop. The mutex
and the timing measurement have no effect on the state or the samples. -/
def AQCallback (sin exp : α → α) (M_PI : α) (N : Nat) (s : AudioState α) :
    AudioState α × List Int :=
  let step := (2 * M_PI * s.freq) / sr
  let mod_step := step * 2
  AQCallback_loop sin exp M_PI step mod_step N s

/-- The effect of `audio_init` of `demo.c` on `g_as`:
`memset(&g_as, 0, sizeof(g_as)); g_as.freq = 55.0; g_as.vol = 0.5; g_as.samples_left = 0;`. -/
def audio_init : AudioState α :=
  { phase := 0, freq := 55, vol := 0.5, samples_left := 0, mod_phase := 0 }

/-- The trigger of `demo.c`: `g_as.freq = freq; g_as.phase = 0; g_as.mod_phase = 0;`
`g_as.samples_left = (int)(0.25 * 44100.0);`. -/
def audio_slap (freq : α) (s : AudioState α) : AudioState α :=
  { s with freq := freq, phase := 0, mod_phase := 0,
           samples_left := double_to_int ((0.25 : α) * 44100) }

end Demo

/-! ## Reachable states and the countdown invariant -/

namespace AvGlut

variable {α : Type} [LinearOrderedField α] [FloorRing α]

/-- The countdown bound of the simple variant: `0 <= samples_left <= 5292`. -/
def Inv (s : AudioState α) : Prop := 0 ≤ s.samples_left ∧ s.samples_left ≤ 5292

/-- States of `g_as` reachable in `av_glut.c`: the state left by `audio_init`, closed under
`audio_beep` with any arguments and under a buffer-fill pass of any length. -/
inductive Reachable (sin : α → α) (M_PI : α) : AudioState α → Prop
  | init : Reachable sin M_PI audio_init
  | beep (freq vol : α) (s : AudioState α) :
      Reachable sin M_PI s → Reachable sin M_PI (audio_beep freq vol s)
  | pass (N : Nat) (s : AudioState α) :
      Reachable sin M_PI s → Reachable sin M_PI (AQCallback sin M_PI N s).1

end AvGlut

namespace Demo

variable {α : Type} [LinearOrderedField α] [FloorRing α]

/-- The countdown bound of the richer variant: `0 <= samples_left <= 11025`. -/
def Inv (s : AudioState α) : Prop := 0 ≤ s.samples_left ∧ s.samples_left ≤ 11025

/-- States of `g_as` reachable in `demo.c`: the state left by `audio_init`, closed under
`audio_slap` with any frequency and under a buffer-fill pass of any length. -/
inductive Reachable (sin exp : α → α) (M_PI : α) : AudioState α → Prop
  | init : Reachable sin exp M_PI audio_init
  | slap (freq : α) (s : AudioState α) :
      Reachable sin exp M_PI s → Reachable sin exp M_PI (audio_slap freq s)
  | pass (N : Nat) (s : AudioState α) :
      Reachable sin exp M_PI s → Reachable sin exp M_PI (AQCallback sin exp M_PI N s).1

end Demo

/-! ## Scale tables, note scheduler and device teardown -/

section Scale

variable {α : Type} [LinearOrderedField α] [FloorRing α]

/-- The table `static const int st[]={0,3,5,7,10};` declared in both scale functions. -/
def st : List Int := [0, 3, 5, 7, 10]

/-- The array read `st[i]`: defined only for an index inside the five-entry table. -/
def st_read (i : Int) : Option Int :=
  if 0 ≤ i then st[i.toNat]? else none

/-- The libm `floor`, as a `double`-valued function. -/
def floor_d (t : α) : α := ((Int.floor t : Int) : α)

/-- Result of one poll of a note scheduler: the process called `exit(0)`, it read outside the
scale table, or it goes on with new globals; `acted` tells whether the tick branch was
entered. -/
inductive Poll (σ : Type) where
  | exited : Poll σ
  | undefined : Poll σ
  | next (acted : Bool) (g : σ) : Poll σ

/-- A call made to the audio device: `AudioQueueStop(q, immediate)` or
`AudioQueueDispose(q, immediate)`. -/
inductive DeviceCall where
  | AudioQueueStop (q : Nat) (immediate : Bool) : DeviceCall
  | AudioQueueDispose (q : Nat) (immediate : Bool) : DeviceCall
deriving DecidableEq, Repr

/-- The device handle `g_q` (a pointer, `0` is `NULL`) and the calls issued to the device so
far, oldest first. -/
structure Device where
  g_q : Nat
  calls : List DeviceCall
deriving DecidableEq, Repr

/-- The formula of the scale table in the specification:
`freq = base * 2^octave * 2^(semitone/12)`, with the power function as a parameter. -/
def spec_frequency (pow : α → α → α) (base : α) (octave semitone : Int) : α :=
  base * pow 2 (octave : α) * pow 2 ((semitone : α) / 12)

end Scale

namespace AvGlut

variable {α : Type} [LinearOrderedField α] [FloorRing α]

/-- The scale function of `av_glut.c`:
`int o=k/5; int d=st[k%5]; double base=220.0*pow(2.0,o); return base*pow(2.0,d/12.0);`
with the truncating `/` and `%` of C. -/
def note_minor_pent_step (pow : α → α → α) (k : Int) : Option α :=
  let o : Int := Int.tdiv k 5
  (st_read (Int.tmod k 5)).map fun d =>
    let base : α := 220 * pow 2 (o : α)
    base * pow 2 ((d : α) / 12)

/-- The teardown of `av_glut.c`:
`if(g_q){ AudioQueueStop(g_q,true); AudioQueueDispose(g_q,true); g_q=NULL; }`. -/
def audio_shutdown (d : Device) : Device :=
  if d.g_q ≠ 0 then
    { g_q := 0,
      calls := d.calls ++ [DeviceCall.AudioQueueStop d.g_q true,
        DeviceCall.AudioQueueDispose d.g_q true] }
  else d

/-- The globals read and written by the scheduler in `display`: the synth state and
`static int g_last_sec=-1; static int g_k=0;`. -/
structure Globals (α : Type) where
  g_as : AudioState α
  g_last_sec : Int
  g_k : Int

/-- The scheduler part of `display`, for elapsed time `t = now_s() - g_t0`:
`if (t>75.0){ audio_shutdown(); exit(0); }`
`int sec=(int)floor(t); if (sec!=g_last_sec){ g_last_sec=sec; audio_beep(note_minor_pent_step(g_k++),0.4); }`. -/
def display (pow : α → α → α) (t : α) (g : Globals α) : Poll (Globals α) :=
  if t > 75 then Poll.exited
  else
    let sec : Int := double_to_int (floor_d t)
    if sec ≠ g.g_last_sec then
      match note_minor_pent_step pow g.g_k with
      | some f =>
        Poll.next true { g_as := audio_beep f 0.4 g.g_as, g_last_sec := sec, g_k := g.g_k + 1 }
      | none => Poll.undefined
    else Poll.next false g

end AvGlut

namespace Demo

variable {α : Type} [LinearOrderedField α] [FloorRing α]

/-- The scale function of `demo.c`:
`int scale_idx = k % 5; int octave = (k / 5) % 2; double base = 55.0 * pow(2.0, octave);`
`return base * pow(2.0, st[scale_idx] / 12.0);`. -/
def get_funky_bass_note (pow : α → α → α) (k : Int) : Option α :=
  let scale_idx : Int := Int.tmod k 5
  let octave : Int := Int.tmod (Int.tdiv k 5) 2
  (st_read scale_idx).map fun d =>
    let base : α := 55 * pow 2 (octave : α)
    base * pow 2 ((d : α) / 12)

/-- The teardown of `demo.c`:
`if(g_q){ AudioQueueStop(g_q, true); AudioQueueDispose(g_q, true); g_q = NULL; }`. -/
def audio_shutdown (d : Device) : Device :=
  if d.g_q ≠ 0 then
    { g_q := 0,
      calls := d.calls ++ [DeviceCall.AudioQueueStop d.g_q true,
        DeviceCall.AudioQueueDispose d.g_q true] }
  else d

/-- The per-tick trigger test `rand() % 10 > 2` of the render loop, on the drawn value. -/
def slap_decision (r : Int) : Bool := decide (Int.tmod r 10 > 2)

/-- The state of the beat scheduler in `main`: the synth state, `last_beat_tick` and the
window's should-close flag. -/
structure Globals (α : Type) where
  g_as : AudioState α
  last_beat_tick : Int
  should_close : Bool

end Demo

/-! ## Successive passes without a trigger -/

namespace Demo

variable {α : Type} [LinearOrderedField α] [FloorRing α]

/-- Successive calls of `AQCallback` of `demo.c` for buffers of the given lengths, with no
`audio_slap` in between; the result is the state of `g_as` after the last call. -/
def AQCallback_passes (sin exp : α → α) (M_PI : α) : List Nat → AudioState α → AudioState α
  | [], s => s
  | N :: Ns, s => AQCallback_passes sin exp M_PI Ns (AQCallback sin exp M_PI N s).1

end Demo

/-! ## Basic facts about the embedding -/

section CommonLemmas

variable {α : Type} [LinearOrderedField α] [FloorRing α]

theorem double_to_int_intCast (z : Int) : double_to_int ((z : Int) : α) = z := by
  unfold double_to_int
  split_ifs <;> simp

theorem double_to_int_zero : double_to_int (0 : α) = 0 := by
  simpa using double_to_int_intCast (α := α) 0

end CommonLemmas

namespace AvGlut

variable {α : Type} [LinearOrderedField α] [FloorRing α]

theorem tot_eq : tot (α := α) = 5292 := by
  have h : (0.12 : α) * (sr : α) = ((5292 : Int) : α) := by
    unfold sr; norm_num
  rw [tot, h, double_to_int_intCast]

theorem note_len_eq : double_to_int ((0.12 : α) * 44100) = 5292 := by
  have h : (0.12 : α) * 44100 = ((5292 : Int) : α) := by norm_num
  rw [h, double_to_int_intCast]

theorem loop_body_samples_left (sin : α → α) (M_PI step : α) (s : AudioState α) :
    (loop_body sin M_PI step s).1.samples_left
      = if s.samples_left > 0 then s.samples_left - 1 else s.samples_left := by
  unfold loop_body sounding
  split_ifs <;> rfl

theorem loop_samples_left (sin : α → α) (M_PI step : α) (N : Nat) (s : AudioState α)
    (h : 0 ≤ s.samples_left) :
    (AQCallback_loop sin M_PI step N s).1.samples_left
      = s.samples_left - min (N : Int) s.samples_left := by
  induction N generalizing s with
  | zero => simp [AQCallback_loop, h]
  | succ n ih =>
    simp only [AQCallback_loop]
    have hb := loop_body_samples_left sin M_PI step s
    by_cases hpos : s.samples_left > 0
    · rw [if_pos hpos] at hb
      rw [ih _ (by rw [hb]; omega), hb]
      push_cast
      omega
    · rw [if_neg hpos] at hb
      rw [ih _ (by rw [hb]; exact h), hb]
      push_cast
      omega

end AvGlut

namespace Demo

variable {α : Type} [LinearOrderedField α] [FloorRing α]

theorem demo_tot_eq : tot (α := α) = 11025 := by
  have h : (0.25 : α) * (sr : α) = ((11025 : Int) : α) := by
    unfold sr; norm_num
  rw [tot, h, double_to_int_intCast]

theorem demo_note_len_eq : double_to_int ((0.25 : α) * 44100) = 11025 := by
  have h : (0.25 : α) * 44100 = ((11025 : Int) : α) := by norm_num
  rw [h, double_to_int_intCast]

theorem demo_loop_body_samples_left (sin exp : α → α) (M_PI step mod_step : α) (s : AudioState α) :
    (loop_body sin exp M_PI step mod_step s).1.samples_left
      = if s.samples_left > 0 then s.samples_left - 1 else s.samples_left := by
  unfold loop_body sounding
  split_ifs <;> rfl

theorem demo_loop_samples_left (sin exp : α → α) (M_PI step mod_step : α) (N : Nat)
    (s : AudioState α) (h : 0 ≤ s.samples_left) :
    (AQCallback_loop sin exp M_PI step mod_step N s).1.samples_left
      = s.samples_left - min (N : Int) s.samples_left := by
  induction N generalizing s with
  | zero => simp [AQCallback_loop, h]
  | succ n ih =>
    simp only [AQCallback_loop]
    have hb := demo_loop_body_samples_left sin exp M_PI step mod_step s
    by_cases hpos : s.samples_left > 0
    · rw [if_pos hpos] at hb
      rw [ih _ (by rw [hb]; omega), hb]
      push_cast
      omega
    · rw [if_neg hpos] at hb
      rw [ih _ (by rw [hb]; exact h), hb]
      push_cast
      omega

end Demo

/-! ## Truncation and envelope bounds -/

section TruncLemmas

variable {α : Type} [LinearOrderedField α] [FloorRing α]

theorem double_to_int_abs_le (x : α) (n : Int) (h : |x| ≤ (n : α)) :
    |double_to_int x| ≤ n := by
  have hx := abs_le.mp h
  unfold double_to_int
  split_ifs with h0
  · have h1 : (0 : Int) ≤ Int.floor x := Int.floor_nonneg.mpr h0
    have h2 : Int.floor x ≤ n := by
      have : ((Int.floor x : Int) : α) ≤ (n : α) := le_trans (Int.floor_le x) hx.2
      exact_mod_cast this
    rw [abs_of_nonneg h1]; exact h2
  · push_neg at h0
    have h1 : Int.ceil x ≤ 0 := Int.ceil_le.mpr (by simpa using h0.le)
    have h2 : -n ≤ Int.ceil x := by
      have : ((-n : Int) : α) ≤ ((Int.ceil x : Int) : α) := by
        push_cast; exact le_trans hx.1 (Int.le_ceil x)
      exact_mod_cast this
    rw [abs_of_nonpos h1]; omega

end TruncLemmas

namespace AvGlut

variable {α : Type} [LinearOrderedField α] [FloorRing α]

theorem env_eq (sl : Int) :
    (env sl : α) = if 5292 - sl < 200 then ((5292 - sl : Int) : α) / 200
      else if sl < 200 then (sl : α) / 200 else 1 := by
  unfold env
  simp only [tot_eq]
  norm_num

theorem env_bounds (sl : Int) (h0 : 0 < sl) (h1 : sl ≤ 5292) :
    0 ≤ (env sl : α) ∧ (env sl : α) ≤ 1 := by
  rw [env_eq]
  split_ifs with ha hr
  · have hlo : (0 : α) ≤ ((5292 - sl : Int) : α) := by exact_mod_cast (by omega : (0 : Int) ≤ 5292 - sl)
    have hhi : ((5292 - sl : Int) : α) ≤ 200 := by exact_mod_cast (by omega : 5292 - sl ≤ (200 : Int))
    constructor
    · positivity
    · rw [div_le_one (by norm_num)]; exact hhi
  · have hlo : (0 : α) ≤ (sl : α) := by exact_mod_cast h0.le
    have hhi : (sl : α) ≤ 200 := by exact_mod_cast (by omega : sl ≤ (200 : Int))
    constructor
    · positivity
    · rw [div_le_one (by norm_num)]; exact hhi
  · exact ⟨zero_le_one, le_refl 1⟩

omit [FloorRing α] in
theorem sample_value_abs_le (sin : α → α) (hsin : ∀ x, |sin x| ≤ 1) (phase vol e : α)
    (hv0 : 0 ≤ vol) (hv1 : vol ≤ 1) (he0 : 0 ≤ e) (he1 : e ≤ 1) :
    |sample_value sin phase vol e| ≤ 32767 := by
  unfold sample_value
  have h6 : |(0.6 : α)| ≤ 1 := by rw [abs_of_nonneg (by norm_num)]; norm_num
  have hs := hsin phase
  rw [abs_mul, abs_mul, abs_mul, abs_mul, abs_of_nonneg he0, abs_of_nonneg hv0,
    abs_of_nonneg (by norm_num : (0 : α) ≤ 32767)]
  have a1 : |sin phase| * 32767 ≤ 32767 := by nlinarith [abs_nonneg (sin phase)]
  have a2 : |sin phase| * 32767 * vol ≤ 32767 := by
    nlinarith [mul_nonneg (abs_nonneg (sin phase)) (by norm_num : (0 : α) ≤ 32767)]
  have a2n : 0 ≤ |sin phase| * 32767 * vol := by positivity
  have a3 : |sin phase| * 32767 * vol * |(0.6 : α)| ≤ 32767 := by
    nlinarith [abs_nonneg (0.6 : α)]
  have a3n : 0 ≤ |sin phase| * 32767 * vol * |(0.6 : α)| := by positivity
  nlinarith

theorem loop_body_vol (sin : α → α) (M_PI step : α) (s : AudioState α) :
    (loop_body sin M_PI step s).1.vol = s.vol ∧ (loop_body sin M_PI step s).1.freq = s.freq := by
  unfold loop_body sounding
  split_ifs <;> exact ⟨rfl, rfl⟩

theorem loop_vol (sin : α → α) (M_PI step : α) (N : Nat) (s : AudioState α) :
    (AQCallback_loop sin M_PI step N s).1.vol = s.vol ∧
    (AQCallback_loop sin M_PI step N s).1.freq = s.freq := by
  induction N generalizing s with
  | zero => exact ⟨rfl, rfl⟩
  | succ n ih =>
    simp only [AQCallback_loop]
    have hb := loop_body_vol sin M_PI step s
    exact ⟨(ih _).1.trans hb.1, (ih _).2.trans hb.2⟩

theorem loop_body_out_abs_le (sin : α → α) (hsin : ∀ x, |sin x| ≤ 1) (M_PI step : α)
    (s : AudioState α) (hv0 : 0 ≤ s.vol) (hv1 : s.vol ≤ 1) (hl1 : s.samples_left ≤ 5292) :
    |(loop_body sin M_PI step s).2| ≤ 32767 := by
  unfold loop_body
  split_ifs with hpos
  · have he := env_bounds (α := α) s.samples_left hpos hl1
    have hval := sample_value_abs_le sin hsin (advance M_PI s.phase step) s.vol
      (env s.samples_left) hv0 hv1 he.1 he.2
    exact double_to_int_abs_le _ 32767 (by exact_mod_cast hval)
  · simp

theorem loop_out_abs_le (sin : α → α) (hsin : ∀ x, |sin x| ≤ 1) (M_PI step : α) (N : Nat)
    (s : AudioState α) (hv0 : 0 ≤ s.vol) (hv1 : s.vol ≤ 1) (hl1 : s.samples_left ≤ 5292) :
    ∀ z ∈ (AQCallback_loop sin M_PI step N s).2, |z| ≤ 32767 := by
  induction N generalizing s with
  | zero => intro z hz; simp [AQCallback_loop] at hz
  | succ n ih =>
    intro z hz
    simp only [AQCallback_loop, List.mem_cons] at hz
    rcases hz with hz | hz
    · rw [hz]; exact loop_body_out_abs_le sin hsin M_PI step s hv0 hv1 hl1
    · have hb := loop_body_vol sin M_PI step s
      have hsl := loop_body_samples_left sin M_PI step s
      refine ih (loop_body sin M_PI step s).1 ?_ ?_ ?_ z hz
      · rw [hb.1]; exact hv0
      · rw [hb.1]; exact hv1
      · rw [hsl]; split_ifs <;> omega

theorem loop_silent (sin : α → α) (M_PI step : α) (N : Nat) (s : AudioState α)
    (h : s.samples_left = 0) :
    AQCallback_loop sin M_PI step N s = (s, List.replicate N 0) := by
  induction N with
  | zero => rfl
  | succ n ih =>
    have hb : loop_body sin M_PI step s = (s, 0) := by
      unfold loop_body; rw [if_neg (by omega)]
    simp only [AQCallback_loop, hb, ih, List.replicate_succ]

end AvGlut

namespace Demo

variable {α : Type} [LinearOrderedField α] [FloorRing α]

theorem demo_loop_silent (sin exp : α → α) (M_PI step mod_step : α) (N : Nat) (s : AudioState α)
    (h : s.samples_left = 0) :
    AQCallback_loop sin exp M_PI step mod_step N s = (s, List.replicate N 0) := by
  induction N with
  | zero => rfl
  | succ n ih =>
    have hb : loop_body sin exp M_PI step mod_step s = (s, 0) := by
      unfold loop_body; rw [if_neg (by omega)]
    simp only [AQCallback_loop, hb, ih, List.replicate_succ]

end Demo

/-! ## Splitting a pass into a sounding run and a silent tail -/

namespace AvGlut

variable {α : Type} [LinearOrderedField α] [FloorRing α]

theorem loop_length (sin : α → α) (M_PI step : α) (N : Nat) (s : AudioState α) :
    (AQCallback_loop sin M_PI step N s).2.length = N := by
  induction N generalizing s with
  | zero => rfl
  | succ n ih => simp [AQCallback_loop, ih]

theorem loop_add (sin : α → α) (M_PI step : α) (a b : Nat) (s : AudioState α) :
    AQCallback_loop sin M_PI step (a + b) s
      = ((AQCallback_loop sin M_PI step b (AQCallback_loop sin M_PI step a s).1).1,
         (AQCallback_loop sin M_PI step a s).2
           ++ (AQCallback_loop sin M_PI step b (AQCallback_loop sin M_PI step a s).1).2) := by
  induction a generalizing s with
  | zero => simp [AQCallback_loop]
  | succ n ih =>
    have e : n + 1 + b = (n + b) + 1 := by omega
    rw [e]
    simp only [AQCallback_loop, ih, List.cons_append]

theorem loop_succ_right (sin : α → α) (M_PI step : α) (n : Nat) (s : AudioState α) :
    AQCallback_loop sin M_PI step (n + 1) s
      = ((loop_body sin M_PI step (AQCallback_loop sin M_PI step n s).1).1,
         (AQCallback_loop sin M_PI step n s).2
           ++ [(loop_body sin M_PI step (AQCallback_loop sin M_PI step n s).1).2]) := by
  rw [loop_add]
  simp [AQCallback_loop]

theorem loop_get (sin : α → α) (M_PI step : α) (N i : Nat) (hi : i < N) (s : AudioState α) :
    (AQCallback_loop sin M_PI step N s).2[i]?
      = some (loop_body sin M_PI step (AQCallback_loop sin M_PI step i s).1).2 := by
  obtain ⟨k, rfl⟩ : ∃ k, N = (i + 1) + k := ⟨N - (i + 1), by omega⟩
  rw [loop_add]
  simp only
  rw [List.getElem?_append_left (by rw [loop_length]; omega), loop_succ_right]
  simp only
  rw [List.getElem?_append_right (by rw [loop_length])]
  simp [loop_length]

theorem loop_sounding_run (sin : α → α) (M_PI step : α) (n : Nat) (s : AudioState α)
    (h : s.samples_left = (n : Int)) :
    (AQCallback_loop sin M_PI step n s).1
        = (fun u => (sounding sin M_PI step u).1)^[n] s ∧
    (AQCallback_loop sin M_PI step n s).1.samples_left = 0 := by
  induction n generalizing s with
  | zero => exact ⟨rfl, by simpa using h⟩
  | succ k ih =>
    have hb : loop_body sin M_PI step s = sounding sin M_PI step s := by
      unfold loop_body; rw [if_pos (by omega)]
    have hk : (sounding sin M_PI step s).1.samples_left = (k : Int) := by
      show s.samples_left - 1 = (k : Int)
      rw [h]; push_cast; omega
    simp only [AQCallback_loop, hb, Function.iterate_succ, Function.comp_apply]
    exact ih _ hk

theorem loop_silent_tail (sin : α → α) (M_PI step : α) (N r : Nat) (s : AudioState α)
    (h : s.samples_left = (r : Int)) (hr : r < N) :
    (AQCallback_loop sin M_PI step N s).1 = (fun u => (sounding sin M_PI step u).1)^[r] s ∧
    ∀ i : Nat, r ≤ i → i < N → (AQCallback_loop sin M_PI step N s).2[i]? = some 0 := by
  obtain ⟨k, rfl⟩ : ∃ k, N = r + k := ⟨N - r, by omega⟩
  have hp := loop_sounding_run sin M_PI step r s h
  have hsil := loop_silent sin M_PI step k _ hp.2
  rw [loop_add, hsil]
  refine ⟨hp.1, ?_⟩
  intro i hri hik
  simp only
  rw [List.getElem?_append_right (by rw [loop_length]; exact hri), loop_length]
  rw [List.getElem?_replicate]
  rw [if_pos (by omega)]

end AvGlut

namespace Demo

variable {α : Type} [LinearOrderedField α] [FloorRing α]

theorem demo_loop_length (sin exp : α → α) (M_PI step mod_step : α) (N : Nat) (s : AudioState α) :
    (AQCallback_loop sin exp M_PI step mod_step N s).2.length = N := by
  induction N generalizing s with
  | zero => rfl
  | succ n ih => simp [AQCallback_loop, ih]

theorem demo_loop_add (sin exp : α → α) (M_PI step mod_step : α) (a b : Nat) (s : AudioState α) :
    AQCallback_loop sin exp M_PI step mod_step (a + b) s
      = ((AQCallback_loop sin exp M_PI step mod_step b
            (AQCallback_loop sin exp M_PI step mod_step a s).1).1,
         (AQCallback_loop sin exp M_PI step mod_step a s).2
           ++ (AQCallback_loop sin exp M_PI step mod_step b
            (AQCallback_loop sin exp M_PI step mod_step a s).1).2) := by
  induction a generalizing s with
  | zero => simp [AQCallback_loop]
  | succ n ih =>
    have e : n + 1 + b = (n + b) + 1 := by omega
    rw [e]
    simp only [AQCallback_loop, ih, List.cons_append]

theorem demo_loop_sounding_run (sin exp : α → α) (M_PI step mod_step : α) (n : Nat)
    (s : AudioState α) (h : s.samples_left = (n : Int)) :
    (AQCallback_loop sin exp M_PI step mod_step n s).1
        = (fun u => (sounding sin exp M_PI step mod_step u).1)^[n] s ∧
    (AQCallback_loop sin exp M_PI step mod_step n s).1.samples_left = 0 := by
  induction n generalizing s with
  | zero => exact ⟨rfl, by simpa using h⟩
  | succ k ih =>
    have hb : loop_body sin exp M_PI step mod_step s = sounding sin exp M_PI step mod_step s := by
      unfold loop_body; rw [if_pos (by omega)]
    have hk : (sounding sin exp M_PI step mod_step s).1.samples_left = (k : Int) := by
      show s.samples_left - 1 = (k : Int)
      rw [h]; push_cast; omega
    simp only [AQCallback_loop, hb, Function.iterate_succ, Function.comp_apply]
    exact ih _ hk

theorem demo_loop_silent_tail (sin exp : α → α) (M_PI step mod_step : α) (N r : Nat)
    (s : AudioState α) (h : s.samples_left = (r : Int)) (hr : r < N) :
    (AQCallback_loop sin exp M_PI step mod_step N s).1
        = (fun u => (sounding sin exp M_PI step mod_step u).1)^[r] s ∧
    ∀ i : Nat, r ≤ i → i < N →
      (AQCallback_loop sin exp M_PI step mod_step N s).2[i]? = some 0 := by
  obtain ⟨k, rfl⟩ : ∃ k, N = r + k := ⟨N - r, by omega⟩
  have hp := demo_loop_sounding_run sin exp M_PI step mod_step r s h
  have hsil := demo_loop_silent sin exp M_PI step mod_step k _ hp.2
  rw [demo_loop_add, hsil]
  refine ⟨hp.1, ?_⟩
  intro i hri hik
  simp only
  rw [List.getElem?_append_right (by rw [demo_loop_length]; exact hri), demo_loop_length]
  rw [List.getElem?_replicate]
  rw [if_pos (by omega)]

end Demo

/-! ## The attack ramp after a trigger -/

namespace AvGlut

variable {α : Type} [LinearOrderedField α] [FloorRing α]

theorem env_attack (i : Nat) (hi : i < 200) : (env (5292 - (i : Int)) : α) = (i : α) / 200 := by
  rw [env_eq]
  have e : (5292 : Int) - (5292 - (i : Int)) = (i : Int) := by omega
  rw [e, if_pos (by omega)]
  simp

theorem loop_after_beep (sin : α → α) (M_PI step : α) (f v : α) (s : AudioState α)
    (i : Nat) (hi : i < 5292) :
    (AQCallback_loop sin M_PI step i (audio_beep f v s)).1.samples_left = 5292 - (i : Int) ∧
    (AQCallback_loop sin M_PI step i (audio_beep f v s)).1.vol = v ∧
    loop_body sin M_PI step (AQCallback_loop sin M_PI step i (audio_beep f v s)).1
      = sounding sin M_PI step (AQCallback_loop sin M_PI step i (audio_beep f v s)).1 := by
  have h0 : (audio_beep f v s).samples_left = 5292 := note_len_eq
  have hsl := loop_samples_left sin M_PI step i (audio_beep f v s) (by rw [h0]; omega)
  rw [h0] at hsl
  have hsl2 : (AQCallback_loop sin M_PI step i (audio_beep f v s)).1.samples_left
      = 5292 - (i : Int) := by rw [hsl]; omega
  refine ⟨hsl2, (loop_vol sin M_PI step i _).1, ?_⟩
  unfold loop_body
  rw [if_pos (by rw [hsl2]; omega)]

theorem sample_after_beep (sin : α → α) (M_PI step : α) (f v : α) (s : AudioState α)
    (N i : Nat) (hN : i < N) (hi : i < 5292) :
    (AQCallback_loop sin M_PI step N (audio_beep f v s)).2[i]?
      = some (double_to_int (sample_value sin
          (AQCallback_loop sin M_PI step (i + 1) (audio_beep f v s)).1.phase v
          (env (AQCallback_loop sin M_PI step i (audio_beep f v s)).1.samples_left))) := by
  have h := loop_after_beep sin M_PI step f v s i hi
  rw [loop_get sin M_PI step N i hN, loop_succ_right, h.2.2]
  simp only [sounding, h.2.1]

end AvGlut

/-! ## The envelopes as functions of the note age -/

namespace AvGlut

variable {α : Type} [LinearOrderedField α] [FloorRing α]

theorem env_age (age : Int) :
    (env (5292 - age) : α) = if age < 200 then (age : α) / 200
      else if 5092 < age then (5292 - (age : α)) / 200 else 1 := by
  rw [env_eq]
  have e : (5292 : Int) - (5292 - age) = age := by omega
  rw [e]
  by_cases h1 : age < 200
  · rw [if_pos h1, if_pos h1]
  · rw [if_neg h1, if_neg h1]
    by_cases h2 : 5092 < age
    · rw [if_pos (by omega), if_pos h2]; push_cast; rfl
    · rw [if_neg (by omega), if_neg h2]

theorem env_step (age : Int) (h0 : 0 ≤ age) (h1 : age + 1 ≤ 5291) :
    |(env (5292 - (age + 1)) : α) - env (5292 - age)| ≤ 1 / 200 := by
  have hpos : |(1 : α) / 200| ≤ 1 / 200 := by rw [abs_of_nonneg (by norm_num)]
  have hneg : |(-1 : α) / 200| ≤ 1 / 200 := by
    rw [neg_div, abs_neg, abs_of_nonneg (by norm_num)]
  have hcases : age + 1 < 200 ∨ age = 199 ∨ (200 ≤ age ∧ age + 1 ≤ 5092) ∨ age = 5092 ∨
      5093 ≤ age := by omega
  rcases hcases with h | h | h | h | h
  · have ha : age < 200 := by omega
    rw [env_age (age + 1), env_age age, if_pos h, if_pos ha]
    have e : ((age + 1 : Int) : α) / 200 - (age : α) / 200 = 1 / 200 := by push_cast; ring
    rw [e]; exact hpos
  · subst h
    rw [env_age (199 + 1), env_age 199, if_neg (by omega), if_neg (by omega), if_pos (by omega)]
    have e : (1 : α) - ((199 : Int) : α) / 200 = 1 / 200 := by push_cast; norm_num
    rw [e]; exact hpos
  · rw [env_age (age + 1), env_age age, if_neg (by omega), if_neg (by omega),
      if_neg (by omega), if_neg (by omega)]
    simp
  · subst h
    rw [env_age (5092 + 1), env_age 5092, if_neg (by omega), if_pos (by omega),
      if_neg (by omega), if_neg (by omega)]
    have e : (5292 - (((5092 : Int) + 1 : Int) : α)) / 200 - 1 = -1 / 200 := by
      push_cast; norm_num
    rw [e]; exact hneg
  · rw [env_age (age + 1), env_age age, if_neg (by omega), if_pos (by omega),
      if_neg (by omega), if_pos (by omega)]
    have e : (5292 - ((age + 1 : Int) : α)) / 200 - (5292 - (age : α)) / 200 = -1 / 200 := by
      push_cast; ring
    rw [e]; exact hneg

end AvGlut

namespace Demo

variable {α : Type} [LinearOrderedField α] [FloorRing α]

theorem demo_env_age (exp : α → α) (age : Int) :
    env exp (11025 - age) = if age < 100 then (age : α) / 100
      else exp (-15 * (((age : α) - 100) / 44100)) := by
  unfold env
  simp only [demo_tot_eq]
  have e : (11025 : Int) - (11025 - age) = age := by omega
  rw [e]
  unfold sr
  push_cast
  rfl

end Demo

/-! ## The scale functions -/

section ScaleLemmas

variable {α : Type} [LinearOrderedField α] [FloorRing α]

theorem st_read_in_bounds (i : Int) (h0 : 0 ≤ i) (h1 : i < 5) :
    st_read i = some (st.getD i.toNat 0) := by
  have h : i = 0 ∨ i = 1 ∨ i = 2 ∨ i = 3 ∨ i = 4 := by omega
  rcases h with h | h | h | h | h <;> subst h <;> rfl

omit [FloorRing α] in
theorem note_minor_pent_step_eq (pow : α → α → α) (k : Int) (hk : 0 ≤ k) :
    AvGlut.note_minor_pent_step pow k
      = some (220 * pow 2 ((k / 5 : Int) : α) * pow 2 (((st.getD (k % 5).toNat 0 : Int) : α) / 12)) := by
  unfold AvGlut.note_minor_pent_step
  simp only [Int.tdiv_eq_ediv hk (by decide : (0 : Int) ≤ 5),
    Int.tmod_eq_emod hk (by decide : (0 : Int) ≤ 5)]
  rw [st_read_in_bounds (k % 5) (by omega) (by omega)]
  rfl

omit [FloorRing α] in
theorem get_funky_bass_note_eq (pow : α → α → α) (k : Int) (hk : 0 ≤ k) :
    Demo.get_funky_bass_note pow k
      = some (55 * pow 2 ((k / 5 % 2 : Int) : α)
          * pow 2 (((st.getD (k % 5).toNat 0 : Int) : α) / 12)) := by
  unfold Demo.get_funky_bass_note
  have h5 : Int.tdiv k 5 = k / 5 := Int.tdiv_eq_ediv hk (by decide)
  have h2 : Int.tmod (k / 5) 2 = k / 5 % 2 := Int.tmod_eq_emod (by omega) (by decide)
  simp only [h5, h2, Int.tmod_eq_emod hk (by decide : (0 : Int) ≤ 5)]
  rw [st_read_in_bounds (k % 5) (by omega) (by omega)]
  rfl

theorem rpow_two_octave (o : Int) (ho : 0 ≤ o) :
    (2 : ℝ) ^ ((o : Int) : ℝ) = 2 ^ o.toNat := by
  have h : ((o.toNat : Nat) : Int) = o := Int.toNat_of_nonneg ho
  rw [← Real.rpow_natCast]
  congr 1
  exact_mod_cast h.symm

theorem rpow_two_next_octave (o : Int) :
    (2 : ℝ) ^ (((o + 1 : Int) : Int) : ℝ) = 2 * 2 ^ ((o : Int) : ℝ) := by
  push_cast
  rw [Real.rpow_add_one (by norm_num : (2 : ℝ) ≠ 0)]
  ring

end ScaleLemmas

/-! ## Phase wrapping -/

namespace AvGlut

variable {α : Type} [LinearOrderedField α] [FloorRing α]

omit [FloorRing α] in
theorem advance_closed (M_PI phase step : α) (h0 : 0 ≤ phase) (h1 : phase ≤ 2 * M_PI)
    (hs0 : 0 ≤ step) (hs1 : step < 2 * M_PI) :
    0 ≤ advance M_PI phase step ∧ advance M_PI phase step ≤ 2 * M_PI := by
  unfold advance
  simp only
  split_ifs with h
  · constructor <;> linarith
  · push_neg at h
    constructor <;> linarith

theorem loop_phase_closed (sin : α → α) (M_PI step : α) (hs0 : 0 ≤ step)
    (hs1 : step < 2 * M_PI) (N : Nat) (s : AudioState α)
    (h : 0 ≤ s.phase ∧ s.phase ≤ 2 * M_PI) :
    0 ≤ (AQCallback_loop sin M_PI step N s).1.phase ∧
    (AQCallback_loop sin M_PI step N s).1.phase ≤ 2 * M_PI := by
  induction N generalizing s with
  | zero => exact h
  | succ n ih =>
    simp only [AQCallback_loop]
    apply ih
    unfold loop_body
    split_ifs
    · exact advance_closed M_PI s.phase step h.1 h.2 hs0 hs1
    · exact h

end AvGlut

namespace Demo

variable {α : Type} [LinearOrderedField α] [FloorRing α]

omit [FloorRing α] in
theorem demo_advance_closed (M_PI phase step : α) (h0 : 0 ≤ phase) (h1 : phase ≤ 2 * M_PI)
    (hs0 : 0 ≤ step) (hs1 : step < 2 * M_PI) :
    0 ≤ advance M_PI phase step ∧ advance M_PI phase step ≤ 2 * M_PI := by
  unfold advance
  simp only
  split_ifs with h
  · constructor <;> linarith
  · push_neg at h
    constructor <;> linarith

theorem demo_loop_phase_closed (sin exp : α → α) (M_PI step mod_step : α) (hs0 : 0 ≤ step)
    (hs1 : step < 2 * M_PI) (N : Nat) (s : AudioState α)
    (h : 0 ≤ s.phase ∧ s.phase ≤ 2 * M_PI) :
    0 ≤ (AQCallback_loop sin exp M_PI step mod_step N s).1.phase ∧
    (AQCallback_loop sin exp M_PI step mod_step N s).1.phase ≤ 2 * M_PI := by
  induction N generalizing s with
  | zero => exact h
  | succ n ih =>
    simp only [AQCallback_loop]
    apply ih
    unfold loop_body
    split_ifs
    · exact demo_advance_closed M_PI s.phase step h.1 h.2 hs0 hs1
    · exact h

theorem demo_loop_mod_phase_closed (sin exp : α → α) (M_PI step mod_step : α)
    (hs0 : 0 ≤ mod_step) (hs1 : mod_step < 2 * M_PI) (N : Nat) (s : AudioState α)
    (h : 0 ≤ s.mod_phase ∧ s.mod_phase ≤ 2 * M_PI) :
    0 ≤ (AQCallback_loop sin exp M_PI step mod_step N s).1.mod_phase ∧
    (AQCallback_loop sin exp M_PI step mod_step N s).1.mod_phase ≤ 2 * M_PI := by
  induction N generalizing s with
  | zero => exact h
  | succ n ih =>
    simp only [AQCallback_loop]
    apply ih
    unfold loop_body
    split_ifs
    · exact demo_advance_closed M_PI s.mod_phase mod_step h.1 h.2 hs0 hs1
    · exact h

end Demo

/-! ## The note schedulers -/

section TickLemmas

variable {α : Type} [LinearOrderedField α] [FloorRing α]

theorem double_to_int_floor_d (t : α) : double_to_int (floor_d t) = Int.floor t := by
  unfold floor_d
  exact double_to_int_intCast _

end TickLemmas

namespace AvGlut

variable {α : Type} [LinearOrderedField α] [FloorRing α]

end AvGlut

namespace Demo

variable {α : Type} [LinearOrderedField α] [FloorRing α]

end Demo

/-! ## Frame and clipping facts of the richer variant -/

section TruncStrict

variable {α : Type} [LinearOrderedField α] [FloorRing α]

theorem double_to_int_abs_le_of_lt (x : α) (n : Int) (h : |x| < ((n + 1 : Int) : α)) :
    |double_to_int x| ≤ n := by
  have hx := abs_lt.mp h
  unfold double_to_int
  split_ifs with h0
  · have h1 : (0 : Int) ≤ Int.floor x := Int.floor_nonneg.mpr h0
    have h2 : Int.floor x < n + 1 := Int.floor_lt.mpr hx.2
    rw [abs_of_nonneg h1]; omega
  · push_neg at h0
    have h1 : Int.ceil x ≤ 0 := Int.ceil_le.mpr (by simpa using h0.le)
    have h2 : -(n + 1) < Int.ceil x := by
      apply Int.lt_ceil.mpr
      push_cast
      push_cast at hx
      linarith [hx.1]
    rw [abs_of_nonpos h1]; omega

end TruncStrict

namespace Demo

variable {α : Type} [LinearOrderedField α] [FloorRing α]

theorem demo_loop_body_vol (sin exp : α → α) (M_PI step mod_step : α) (s : AudioState α) :
    (loop_body sin exp M_PI step mod_step s).1.vol = s.vol ∧
    (loop_body sin exp M_PI step mod_step s).1.freq = s.freq := by
  unfold loop_body sounding
  split_ifs <;> exact ⟨rfl, rfl⟩

theorem demo_loop_vol (sin exp : α → α) (M_PI step mod_step : α) (N : Nat) (s : AudioState α) :
    (AQCallback_loop sin exp M_PI step mod_step N s).1.vol = s.vol ∧
    (AQCallback_loop sin exp M_PI step mod_step N s).1.freq = s.freq := by
  induction N generalizing s with
  | zero => exact ⟨rfl, rfl⟩
  | succ n ih =>
    simp only [AQCallback_loop]
    have hb := demo_loop_body_vol sin exp M_PI step mod_step s
    exact ⟨(ih _).1.trans hb.1, (ih _).2.trans hb.2⟩

omit [FloorRing α] in
theorem hard_clip_abs_le (x : α) : |hard_clip x| ≤ 0.8 := by
  unfold hard_clip
  simp only
  rw [abs_le]
  split_ifs with h1 h2 h3 <;> constructor <;> norm_num at * <;> linarith

omit [FloorRing α] in
theorem demo_sample_value_abs_le (sin : α → α) (phase mod_phase vol e : α)
    (hv0 : 0 ≤ vol) (he0 : 0 ≤ e) :
    |sample_value sin phase mod_phase vol e| ≤ 0.8 * 32767 * vol * e := by
  unfold sample_value raw_wave
  simp only
  have hc := hard_clip_abs_le (sin (phase + sin mod_phase * 3 * e))
  rw [abs_mul, abs_mul, abs_mul, abs_of_nonneg he0, abs_of_nonneg hv0,
    abs_of_nonneg (by norm_num : (0 : α) ≤ 32767)]
  have h1 : |hard_clip (sin (phase + sin mod_phase * 3 * e))| * 32767 ≤ 0.8 * 32767 :=
    mul_le_mul_of_nonneg_right hc (by norm_num)
  have h2 := mul_le_mul_of_nonneg_right h1 hv0
  exact mul_le_mul_of_nonneg_right h2 he0

theorem demo_env_bounds (sl : Int) (h0 : 0 < sl) (h1 : sl ≤ 11025) :
    0 ≤ env Real.exp sl ∧ env Real.exp sl ≤ 1 := by
  have e : sl = 11025 - (11025 - sl) := by omega
  rw [e, demo_env_age]
  split_ifs with ha
  · have hlo : (0 : ℝ) ≤ ((11025 - sl : Int) : ℝ) := by
      exact_mod_cast (by omega : (0 : Int) ≤ 11025 - sl)
    have hhi : ((11025 - sl : Int) : ℝ) ≤ 100 := by
      exact_mod_cast (by omega : 11025 - sl ≤ (100 : Int))
    constructor
    · positivity
    · rw [div_le_one (by norm_num)]; exact hhi
  · push_neg at ha
    have hge : (100 : ℝ) ≤ ((11025 - sl : Int) : ℝ) := by exact_mod_cast ha
    refine ⟨(Real.exp_pos _).le, Real.exp_le_one_iff.mpr ?_⟩
    have h2 : 0 ≤ (((11025 - sl : Int) : ℝ) - 100) / 44100 := by
      apply div_nonneg <;> linarith
    linarith

theorem demo_loop_body_out_abs_le (sin : ℝ → ℝ) (M_PI step mod_step : ℝ)
    (s : AudioState ℝ) (hv0 : 0 ≤ s.vol) (hv1 : s.vol ≤ 1) (hl1 : s.samples_left ≤ 11025) :
    |(loop_body sin Real.exp M_PI step mod_step s).2| ≤ 26213 := by
  unfold loop_body
  split_ifs with hpos
  · have he := demo_env_bounds s.samples_left hpos hl1
    have hval := demo_sample_value_abs_le sin (advance M_PI s.phase step)
      (advance M_PI s.mod_phase mod_step) s.vol (env Real.exp s.samples_left) hv0 he.1
    apply double_to_int_abs_le_of_lt
    refine lt_of_le_of_lt hval ?_
    have h1 : 0.8 * 32767 * s.vol ≤ 0.8 * 32767 := by nlinarith
    have h2 : 0.8 * 32767 * s.vol * env Real.exp s.samples_left ≤ 0.8 * 32767 := by
      have h3 : (0 : ℝ) ≤ 0.8 * 32767 * s.vol := by positivity
      nlinarith [he.1, he.2]
    push_cast
    linarith
  · simp

theorem demo_loop_out_abs_le (sin : ℝ → ℝ) (M_PI step mod_step : ℝ) (N : Nat)
    (s : AudioState ℝ) (hv0 : 0 ≤ s.vol) (hv1 : s.vol ≤ 1) (hl1 : s.samples_left ≤ 11025) :
    ∀ z ∈ (AQCallback_loop sin Real.exp M_PI step mod_step N s).2, |z| ≤ 26213 := by
  induction N generalizing s with
  | zero => intro z hz; simp [AQCallback_loop] at hz
  | succ n ih =>
    intro z hz
    simp only [AQCallback_loop, List.mem_cons] at hz
    rcases hz with hz | hz
    · rw [hz]; exact demo_loop_body_out_abs_le sin M_PI step mod_step s hv0 hv1 hl1
    · have hb := demo_loop_body_vol sin Real.exp M_PI step mod_step s
      have hsl := demo_loop_body_samples_left sin Real.exp M_PI step mod_step s
      refine ih (loop_body sin Real.exp M_PI step mod_step s).1 ?_ ?_ ?_ z hz
      · rw [hb.1]; exact hv0
      · rw [hb.1]; exact hv1
      · rw [hsl]; split_ifs <;> omega

end Demo

/-! ## The 2:1 relation of modulator and carrier phase -/

namespace Demo

variable {α : Type} [LinearOrderedField α] [FloorRing α]

theorem demo_sounding_steps (sin exp : α → α) (M_PI step : α) (u : AudioState α) :
    ∃ a b : Int, (a = 0 ∨ a = 1) ∧ (b = 0 ∨ b = 1) ∧
      (sounding sin exp M_PI step (step * 2) u).1.phase = u.phase + step - (a : α) * (2 * M_PI) ∧
      (sounding sin exp M_PI step (step * 2) u).1.mod_phase
        = u.mod_phase + 2 * step - (b : α) * (2 * M_PI) := by
  unfold sounding advance
  simp only
  by_cases h1 : u.phase + step > 2 * M_PI
  · by_cases h2 : u.mod_phase + step * 2 > 2 * M_PI
    · refine ⟨1, 1, Or.inr rfl, Or.inr rfl, ?_, ?_⟩
      · rw [if_pos h1]; push_cast; ring
      · rw [if_pos h2]; push_cast; ring
    · refine ⟨1, 0, Or.inr rfl, Or.inl rfl, ?_, ?_⟩
      · rw [if_pos h1]; push_cast; ring
      · rw [if_neg h2]; push_cast; ring
  · by_cases h2 : u.mod_phase + step * 2 > 2 * M_PI
    · refine ⟨0, 1, Or.inl rfl, Or.inr rfl, ?_, ?_⟩
      · rw [if_neg h1]; push_cast; ring
      · rw [if_pos h2]; push_cast; ring
    · refine ⟨0, 0, Or.inl rfl, Or.inl rfl, ?_, ?_⟩
      · rw [if_neg h1]; push_cast; ring
      · rw [if_neg h2]; push_cast; ring

theorem demo_sounding_rel (sin exp : α → α) (M_PI step : α) (u : AudioState α)
    (h : ∃ n : Int, u.mod_phase - 2 * u.phase = (n : α) * (2 * M_PI)) :
    ∃ n : Int, (sounding sin exp M_PI step (step * 2) u).1.mod_phase
      - 2 * (sounding sin exp M_PI step (step * 2) u).1.phase = (n : α) * (2 * M_PI) := by
  obtain ⟨n, hn⟩ := h
  obtain ⟨a, b, _, _, ha, hb⟩ := demo_sounding_steps sin exp M_PI step u
  refine ⟨n + 2 * a - b, ?_⟩
  rw [ha, hb]
  push_cast
  linear_combination hn

theorem demo_loop_rel (sin exp : α → α) (M_PI step : α) (N : Nat) (u : AudioState α)
    (h : ∃ n : Int, u.mod_phase - 2 * u.phase = (n : α) * (2 * M_PI)) :
    ∃ n : Int, (AQCallback_loop sin exp M_PI step (step * 2) N u).1.mod_phase
      - 2 * (AQCallback_loop sin exp M_PI step (step * 2) N u).1.phase
        = (n : α) * (2 * M_PI) := by
  induction N generalizing u with
  | zero => exact h
  | succ k ih =>
    simp only [AQCallback_loop]
    apply ih
    unfold loop_body
    split_ifs
    · exact demo_sounding_rel sin exp M_PI step u h
    · exact h

theorem demo_passes_rel (sin exp : α → α) (M_PI : α) (Ns : List Nat) (u : AudioState α)
    (h : ∃ n : Int, u.mod_phase - 2 * u.phase = (n : α) * (2 * M_PI)) :
    ∃ n : Int, (AQCallback_passes sin exp M_PI Ns u).mod_phase
      - 2 * (AQCallback_passes sin exp M_PI Ns u).phase = (n : α) * (2 * M_PI) := by
  induction Ns generalizing u with
  | nil => exact h
  | cons N Ns ih =>
    simp only [AQCallback_passes]
    apply ih
    exact demo_loop_rel sin exp M_PI _ N u h

end Demo

/-! ## Frequency ranges of the scale functions -/

section ScaleRange

theorem st_entry_bounds (i : Int) (h0 : 0 ≤ i) (h1 : i < 5) :
    0 ≤ st.getD i.toNat 0 ∧ st.getD i.toNat 0 ≤ 10 ∧ (i ≤ 3 → st.getD i.toNat 0 ≤ 7) := by
  have h : i = 0 ∨ i = 1 ∨ i = 2 ∨ i = 3 ∨ i = 4 := by omega
  rcases h with h | h | h | h | h <;> subst h <;> decide

theorem rpow_two_ten_twelfths_lt : (2 : ℝ) ^ ((10 : ℝ) / 12) < 2 := by
  have h := Real.rpow_lt_rpow_of_exponent_lt (by norm_num : (1 : ℝ) < 2)
    (by norm_num : (10 : ℝ) / 12 < 1)
  simpa using h

theorem rpow_semitone_bounds (d : Int) (h0 : 0 ≤ d) (h1 : d ≤ 10) :
    1 ≤ (2 : ℝ) ^ ((d : ℝ) / 12) ∧ (2 : ℝ) ^ ((d : ℝ) / 12) ≤ (2 : ℝ) ^ ((10 : ℝ) / 12) ∧
    (d ≤ 7 → (2 : ℝ) ^ ((d : ℝ) / 12) ≤ (2 : ℝ) ^ ((7 : ℝ) / 12)) := by
  have hd0 : (0 : ℝ) ≤ (d : ℝ) := by exact_mod_cast h0
  have hd1 : (d : ℝ) ≤ 10 := by exact_mod_cast h1
  refine ⟨Real.one_le_rpow (by norm_num) (by positivity), ?_, ?_⟩
  · exact Real.rpow_le_rpow_of_exponent_le (by norm_num) (by linarith)
  · intro h7
    have hd7 : (d : ℝ) ≤ 7 := by exact_mod_cast h7
    exact Real.rpow_le_rpow_of_exponent_le (by norm_num) (by linarith)

theorem step_range (f : ℝ) (h0 : 0 < f) (h1 : f < 44100) :
    0 < (2 * Real.pi * f) / (sr : ℝ) ∧ (2 * Real.pi * f) / (sr : ℝ) < 2 * Real.pi := by
  have hpi := Real.pi_pos
  unfold sr
  constructor
  · positivity
  · rw [div_lt_iff₀ (by norm_num)]
    nlinarith

end ScaleRange

/-! ## Phase drift when the step exceeds a full turn -/

section Drift

variable {α : Type} [LinearOrderedField α] [FloorRing α]

theorem audio_beep_samples_left (f v : α) (s : AvGlut.AudioState α) :
    (AvGlut.audio_beep f v s).samples_left = 5292 :=
  AvGlut.note_len_eq

end Drift

namespace AvGlut

variable {α : Type} [LinearOrderedField α] [FloorRing α]

theorem loop_phase_drift (sin : α → α) (M_PI step : α) (hstep : 2 * M_PI < step) (N : Nat)
    (s : AudioState α) (hp : 0 ≤ s.phase) (hN : (N : Int) ≤ s.samples_left) :
    (AQCallback_loop sin M_PI step N s).1.phase = s.phase + (N : α) * (step - 2 * M_PI) := by
  induction N generalizing s with
  | zero => simp [AQCallback_loop]
  | succ n ih =>
    have hpos : s.samples_left > 0 := by push_cast at hN; omega
    have hb : loop_body sin M_PI step s = sounding sin M_PI step s := by
      unfold loop_body; rw [if_pos hpos]
    have hph : (sounding sin M_PI step s).1.phase = s.phase + step - 2 * M_PI := by
      show advance M_PI s.phase step = s.phase + step - 2 * M_PI
      unfold advance
      simp only
      rw [if_pos (by linarith)]
    have hsl : (sounding sin M_PI step s).1.samples_left = s.samples_left - 1 := rfl
    simp only [AQCallback_loop, hb]
    rw [ih _ (by rw [hph]; linarith) (by rw [hsl]; push_cast at hN; omega), hph]
    push_cast
    ring

end AvGlut

/-! ## The claims -/

section Claims

variable {α : Type} [LinearOrderedField α] [FloorRing α]

/-- C1: in `demo.c`, for every prior state and every frequency `f`, the state right after
`audio_slap(f)` has `freq = f`, `phase = 0`, `mod_phase = 0` and `samples_left = 11025`. -/
theorem audio_slap_post (f : α) (s : Demo.AudioState α) :
    (Demo.audio_slap f s).freq = f ∧ (Demo.audio_slap f s).phase = 0 ∧
    (Demo.audio_slap f s).mod_phase = 0 ∧ (Demo.audio_slap f s).samples_left = 11025 :=
  ⟨rfl, rfl, rfl, Demo.demo_note_len_eq⟩

/-- C2 as stated fails: `audio_beep` of `av_glut.c` does not touch `phase`. From a state with
`phase = 1`, after `audio_beep(220.0, 0.4)` the phase is still `1`, not `0`. -/
theorem audio_beep_phase_not_reset :
    (AvGlut.audio_beep (220 : ℚ) 0.4 ⟨1, 220, 0.3, 0⟩).phase = 1 ∧
    (AvGlut.audio_beep (220 : ℚ) 0.4 ⟨1, 220, 0.3, 0⟩).phase ≠ 0 := by
  constructor
  · rfl
  · show (1 : ℚ) ≠ 0
    norm_num

/-- C2 (amended): in `av_glut.c`, for every prior state and every `(f, v)`, the state right
after `audio_beep(f, v)` has `freq = f`, `vol = v`, `samples_left = 5292`, and `phase` equal
to its value before the call. -/
theorem audio_beep_post (f v : α) (s : AvGlut.AudioState α) :
    (AvGlut.audio_beep f v s).freq = f ∧ (AvGlut.audio_beep f v s).vol = v ∧
    (AvGlut.audio_beep f v s).samples_left = 5292 ∧
    (AvGlut.audio_beep f v s).phase = s.phase :=
  ⟨rfl, rfl, AvGlut.note_len_eq, rfl⟩

/-- C3: for every buffer length `N` and every state with `samples_left = r >= 0`, one
`AQCallback` pass over `N` samples, in either variant, leaves
`samples_left = r - min(N, r)`, and that value is not negative. -/
theorem AQCallback_countdown (sin exp : α → α) (M_PI : α) (N : Nat)
    (s : AvGlut.AudioState α) (t : Demo.AudioState α)
    (hs : 0 ≤ s.samples_left) (ht : 0 ≤ t.samples_left) :
    ((AvGlut.AQCallback sin M_PI N s).1.samples_left
        = s.samples_left - min (N : Int) s.samples_left ∧
      0 ≤ (AvGlut.AQCallback sin M_PI N s).1.samples_left) ∧
    ((Demo.AQCallback sin exp M_PI N t).1.samples_left
        = t.samples_left - min (N : Int) t.samples_left ∧
      0 ≤ (Demo.AQCallback sin exp M_PI N t).1.samples_left) := by
  have h1 := AvGlut.loop_samples_left sin M_PI ((2 * M_PI * s.freq) / sr) N s hs
  have h2 := Demo.demo_loop_samples_left sin exp M_PI ((2 * M_PI * t.freq) / sr)
    ((2 * M_PI * t.freq) / sr * 2) N t ht
  refine ⟨⟨h1, ?_⟩, ⟨h2, ?_⟩⟩
  · show 0 ≤ (AvGlut.AQCallback_loop sin M_PI ((2 * M_PI * s.freq) / sr) N s).1.samples_left
    rw [h1]; omega
  · show 0 ≤ (Demo.AQCallback_loop sin exp M_PI ((2 * M_PI * t.freq) / sr)
      ((2 * M_PI * t.freq) / sr * 2) N t).1.samples_left
    rw [h2]; omega

/-- Witness for C3: a pass over 1024 samples from `samples_left = 5292` leaves 4268 in the
simple variant; a pass over 1024 samples from `samples_left = 700` leaves 0 in the richer one. -/
theorem AQCallback_countdown_witness :
    ((AvGlut.AQCallback Real.sin Real.pi 1024 ⟨0, 220, 0.4, 5292⟩).1.samples_left
        = 5292 - min ((1024 : Nat) : Int) 5292 ∧
      0 ≤ (AvGlut.AQCallback Real.sin Real.pi 1024 ⟨0, 220, 0.4, 5292⟩).1.samples_left) ∧
    ((Demo.AQCallback Real.sin Real.exp Real.pi 1024 ⟨0, 55, 0.5, 700, 0⟩).1.samples_left
        = 700 - min ((1024 : Nat) : Int) 700 ∧
      0 ≤ (Demo.AQCallback Real.sin Real.exp Real.pi 1024 ⟨0, 55, 0.5, 700, 0⟩).1.samples_left) :=
  AQCallback_countdown Real.sin Real.exp Real.pi 1024 ⟨0, 220, 0.4, 5292⟩ ⟨0, 55, 0.5, 700, 0⟩
    (by decide) (by decide)

/-- C4: the bound `0 <= samples_left <= D` (`D = 5292` in `av_glut.c`, `11025` in `demo.c`)
holds after `audio_init`, holds after the trigger from any prior state, and is preserved by
an `AQCallback` pass of any length; hence `samples_left >= 0` in every reachable state. -/
theorem samples_left_invariant (sin exp : α → α) (M_PI : α) :
    (AvGlut.Inv (AvGlut.audio_init : AvGlut.AudioState α) ∧
      (∀ (f v : α) (s : AvGlut.AudioState α), AvGlut.Inv (AvGlut.audio_beep f v s)) ∧
      (∀ (N : Nat) (s : AvGlut.AudioState α), AvGlut.Inv s →
        AvGlut.Inv (AvGlut.AQCallback sin M_PI N s).1) ∧
      (∀ s : AvGlut.AudioState α, AvGlut.Reachable sin M_PI s →
        AvGlut.Inv s ∧ 0 ≤ s.samples_left)) ∧
    (Demo.Inv (Demo.audio_init : Demo.AudioState α) ∧
      (∀ (f : α) (s : Demo.AudioState α), Demo.Inv (Demo.audio_slap f s)) ∧
      (∀ (N : Nat) (s : Demo.AudioState α), Demo.Inv s →
        Demo.Inv (Demo.AQCallback sin exp M_PI N s).1) ∧
      (∀ s : Demo.AudioState α, Demo.Reachable sin exp M_PI s →
        Demo.Inv s ∧ 0 ≤ s.samples_left)) := by
  have a1 : AvGlut.Inv (AvGlut.audio_init : AvGlut.AudioState α) := by
    unfold AvGlut.Inv AvGlut.audio_init; simp
  have a2 : ∀ (f v : α) (s : AvGlut.AudioState α), AvGlut.Inv (AvGlut.audio_beep f v s) := by
    intro f v s
    have h : (AvGlut.audio_beep f v s).samples_left = 5292 := AvGlut.note_len_eq
    unfold AvGlut.Inv; rw [h]; omega
  have a3 : ∀ (N : Nat) (s : AvGlut.AudioState α), AvGlut.Inv s →
      AvGlut.Inv (AvGlut.AQCallback sin M_PI N s).1 := by
    intro N s hs
    have h := AvGlut.loop_samples_left sin M_PI ((2 * M_PI * s.freq) / sr) N s hs.1
    unfold AvGlut.Inv at hs ⊢
    unfold AvGlut.AQCallback
    rw [h]; omega
  have b1 : Demo.Inv (Demo.audio_init : Demo.AudioState α) := by
    unfold Demo.Inv Demo.audio_init; simp
  have b2 : ∀ (f : α) (s : Demo.AudioState α), Demo.Inv (Demo.audio_slap f s) := by
    intro f s
    have h : (Demo.audio_slap f s).samples_left = 11025 := Demo.demo_note_len_eq
    unfold Demo.Inv; rw [h]; omega
  have b3 : ∀ (N : Nat) (s : Demo.AudioState α), Demo.Inv s →
      Demo.Inv (Demo.AQCallback sin exp M_PI N s).1 := by
    intro N s hs
    have h := Demo.demo_loop_samples_left sin exp M_PI ((2 * M_PI * s.freq) / sr)
      ((2 * M_PI * s.freq) / sr * 2) N s hs.1
    unfold Demo.Inv at hs ⊢
    unfold Demo.AQCallback
    simp only
    rw [h]; omega
  refine ⟨⟨a1, a2, a3, ?_⟩, ⟨b1, b2, b3, ?_⟩⟩
  · intro s hr
    have hi : AvGlut.Inv s := by
      induction hr with
      | init => exact a1
      | beep f v s _ _ => exact a2 f v s
      | pass N s _ ih => exact a3 N s ih
    exact ⟨hi, hi.1⟩
  · intro s hr
    have hi : Demo.Inv s := by
      induction hr with
      | init => exact b1
      | slap f s _ _ => exact b2 f s
      | pass N s _ ih => exact b3 N s ih
    exact ⟨hi, hi.1⟩

/-- Witness for C4: in both variants the state reached by init, trigger and a pass over
1024 samples is reachable, so its countdown is within the bound. -/
theorem samples_left_invariant_witness :
    (AvGlut.Inv (AvGlut.AQCallback Real.sin Real.pi 1024
        (AvGlut.audio_beep 220 0.4 AvGlut.audio_init)).1 ∧
      0 ≤ (AvGlut.AQCallback Real.sin Real.pi 1024
        (AvGlut.audio_beep 220 0.4 AvGlut.audio_init)).1.samples_left) ∧
    (Demo.Inv (Demo.AQCallback Real.sin Real.exp Real.pi 1024
        (Demo.audio_slap 55 Demo.audio_init)).1 ∧
      0 ≤ (Demo.AQCallback Real.sin Real.exp Real.pi 1024
        (Demo.audio_slap 55 Demo.audio_init)).1.samples_left) :=
  ⟨(samples_left_invariant Real.sin Real.exp Real.pi).1.2.2.2 _
      (AvGlut.Reachable.pass 1024 _ (AvGlut.Reachable.beep 220 0.4 _ AvGlut.Reachable.init)),
    (samples_left_invariant Real.sin Real.exp Real.pi).2.2.2.2 _
      (Demo.Reachable.pass 1024 _ (Demo.Reachable.slap 55 _ Demo.Reachable.init))⟩

/-- C5: in `av_glut.c`, for a state with `0 <= vol <= 1` and `0 < samples_left <= 5292` the
envelope lies in `[0,1]`; for any phase the value `sin(phase)*32767*vol*0.6*env` has
magnitude at most 32767; and every sample written by an `AQCallback` pass has magnitude at
most 32767, so it is in the `int16_t` range (`sin` any function with `|sin| <= 1`). -/
theorem av_glut_sample_in_range (sin : α → α) (M_PI : α) (hsin : ∀ x, |sin x| ≤ 1)
    (s : AvGlut.AudioState α) (hv0 : 0 ≤ s.vol) (hv1 : s.vol ≤ 1)
    (hl0 : 0 < s.samples_left) (hl1 : s.samples_left ≤ 5292) :
    (0 ≤ (AvGlut.env s.samples_left : α) ∧ (AvGlut.env s.samples_left : α) ≤ 1) ∧
    (∀ phase : α,
      |AvGlut.sample_value sin phase s.vol (AvGlut.env s.samples_left)| ≤ 32767) ∧
    (∀ (N : Nat), ∀ z ∈ (AvGlut.AQCallback sin M_PI N s).2, |z| ≤ 32767 ∧ in_int16 z) := by
  have he := AvGlut.env_bounds (α := α) s.samples_left hl0 hl1
  refine ⟨he, ?_, ?_⟩
  · intro phase
    exact AvGlut.sample_value_abs_le sin hsin phase s.vol _ hv0 hv1 he.1 he.2
  · intro N z hz
    have h := AvGlut.loop_out_abs_le sin hsin M_PI ((2 * M_PI * s.freq) / sr) N s hv0 hv1 hl1
      z hz
    have h2 := abs_le.mp h
    exact ⟨h, by unfold in_int16; omega⟩

/-- Witness for C5: the state right after `audio_beep(220.0, 0.4)`, with the real sine. -/
theorem av_glut_sample_in_range_witness :
    (0 ≤ (AvGlut.env (5292 : Int) : ℝ) ∧ (AvGlut.env (5292 : Int) : ℝ) ≤ 1) ∧
    (∀ phase : ℝ,
      |AvGlut.sample_value Real.sin phase 0.4 (AvGlut.env (5292 : Int))| ≤ 32767) ∧
    (∀ (N : Nat), ∀ z ∈ (AvGlut.AQCallback Real.sin Real.pi N ⟨0, 220, 0.4, 5292⟩).2,
      |z| ≤ 32767 ∧ in_int16 z) :=
  av_glut_sample_in_range Real.sin Real.pi Real.abs_sin_le_one ⟨0, 220, 0.4, 5292⟩
    (by norm_num) (by norm_num) (by decide) (by decide)

/-- C6: for every `N` and every state with `samples_left = 0`, an `AQCallback` pass, in
either variant, writes `N` samples that are all 0 and leaves the whole state unchanged. -/
theorem AQCallback_silent (sin exp : α → α) (M_PI : α) (N : Nat)
    (s : AvGlut.AudioState α) (t : Demo.AudioState α)
    (hs : s.samples_left = 0) (ht : t.samples_left = 0) :
    AvGlut.AQCallback sin M_PI N s = (s, List.replicate N 0) ∧
    Demo.AQCallback sin exp M_PI N t = (t, List.replicate N 0) :=
  ⟨AvGlut.loop_silent sin M_PI _ N s hs, Demo.demo_loop_silent sin exp M_PI _ _ N t ht⟩

/-- Witness for C6: `N = 50` on the states left by `audio_init`. -/
theorem AQCallback_silent_witness :
    AvGlut.AQCallback Real.sin Real.pi 50 (AvGlut.audio_init : AvGlut.AudioState ℝ)
      = (AvGlut.audio_init, List.replicate 50 0) ∧
    Demo.AQCallback Real.sin Real.exp Real.pi 50 (Demo.audio_init : Demo.AudioState ℝ)
      = (Demo.audio_init, List.replicate 50 0) :=
  AQCallback_silent Real.sin Real.exp Real.pi 50 AvGlut.audio_init Demo.audio_init rfl rfl

/-- C7: for a state with `samples_left = r` and `0 <= r < N`, an `AQCallback` pass over `N`
samples, in either variant, still writes exactly `N` samples, the samples at positions
`r..N-1` are all 0, and the phase (and `mod_phase`) after the pass is the phase after exactly
`r` sounding steps: nothing is advanced during the silent tail. -/
theorem AQCallback_silent_tail (sin exp : α → α) (M_PI : α) (N r : Nat)
    (s : AvGlut.AudioState α) (t : Demo.AudioState α)
    (hs : s.samples_left = (r : Int)) (ht : t.samples_left = (r : Int)) (hr : r < N) :
    ((AvGlut.AQCallback sin M_PI N s).2.length = N ∧
      (∀ i : Nat, r ≤ i → i < N → (AvGlut.AQCallback sin M_PI N s).2[i]? = some 0) ∧
      (AvGlut.AQCallback sin M_PI N s).1.phase
        = ((fun u => (AvGlut.sounding sin M_PI ((2 * M_PI * s.freq) / sr) u).1)^[r] s).phase) ∧
    ((Demo.AQCallback sin exp M_PI N t).2.length = N ∧
      (∀ i : Nat, r ≤ i → i < N → (Demo.AQCallback sin exp M_PI N t).2[i]? = some 0) ∧
      (Demo.AQCallback sin exp M_PI N t).1.phase
        = ((fun u => (Demo.sounding sin exp M_PI ((2 * M_PI * t.freq) / sr)
            ((2 * M_PI * t.freq) / sr * 2) u).1)^[r] t).phase ∧
      (Demo.AQCallback sin exp M_PI N t).1.mod_phase
        = ((fun u => (Demo.sounding sin exp M_PI ((2 * M_PI * t.freq) / sr)
            ((2 * M_PI * t.freq) / sr * 2) u).1)^[r] t).mod_phase) := by
  have h1 := AvGlut.loop_silent_tail sin M_PI ((2 * M_PI * s.freq) / sr) N r s hs hr
  have h2 := Demo.demo_loop_silent_tail sin exp M_PI ((2 * M_PI * t.freq) / sr)
    ((2 * M_PI * t.freq) / sr * 2) N r t ht hr
  refine ⟨⟨AvGlut.loop_length sin M_PI _ N s, h1.2, ?_⟩,
    ⟨Demo.demo_loop_length sin exp M_PI _ _ N t, h2.2, ?_, ?_⟩⟩
  · exact congrArg AvGlut.AudioState.phase h1.1
  · exact congrArg Demo.AudioState.phase h2.1
  · exact congrArg Demo.AudioState.mod_phase h2.1

/-- Witness for C7: three samples left and a buffer of five samples. -/
theorem AQCallback_silent_tail_witness :
    ((AvGlut.AQCallback Real.sin Real.pi 5 ⟨0, 220, 0.4, 3⟩).2.length = 5 ∧
      (∀ i : Nat, 3 ≤ i → i < 5 →
        (AvGlut.AQCallback Real.sin Real.pi 5 ⟨0, 220, 0.4, 3⟩).2[i]? = some 0) ∧
      (AvGlut.AQCallback Real.sin Real.pi 5 ⟨0, 220, 0.4, 3⟩).1.phase
        = ((fun u => (AvGlut.sounding Real.sin Real.pi ((2 * Real.pi * 220) / sr) u).1)^[3]
            ⟨0, 220, 0.4, 3⟩).phase) ∧
    ((Demo.AQCallback Real.sin Real.exp Real.pi 5 ⟨0, 55, 0.5, 3, 0⟩).2.length = 5 ∧
      (∀ i : Nat, 3 ≤ i → i < 5 →
        (Demo.AQCallback Real.sin Real.exp Real.pi 5 ⟨0, 55, 0.5, 3, 0⟩).2[i]? = some 0) ∧
      (Demo.AQCallback Real.sin Real.exp Real.pi 5 ⟨0, 55, 0.5, 3, 0⟩).1.phase
        = ((fun u => (Demo.sounding Real.sin Real.exp Real.pi ((2 * Real.pi * 55) / sr)
            ((2 * Real.pi * 55) / sr * 2) u).1)^[3] ⟨0, 55, 0.5, 3, 0⟩).phase ∧
      (Demo.AQCallback Real.sin Real.exp Real.pi 5 ⟨0, 55, 0.5, 3, 0⟩).1.mod_phase
        = ((fun u => (Demo.sounding Real.sin Real.exp Real.pi ((2 * Real.pi * 55) / sr)
            ((2 * Real.pi * 55) / sr * 2) u).1)^[3] ⟨0, 55, 0.5, 3, 0⟩).mod_phase) :=
  AQCallback_silent_tail Real.sin Real.exp Real.pi 5 3 ⟨0, 220, 0.4, 3⟩ ⟨0, 55, 0.5, 3, 0⟩
    rfl rfl (by decide)

/-- C8: in `av_glut.c`, for every prior state and every `(f, v)`, `audio_beep(f, v)` followed
by one `AQCallback` pass with `N = 100` yields `sample[0] = 0` exactly; for every `i` in
`0..99` the envelope applied to sample `i` is `i/200` (sample `i` is the truncation of
`sin(phase_i)*32767*v*0.6*(i/200)`), and that envelope is strictly increasing in `i`. -/
theorem beep_attack_ramp (sin : α → α) (M_PI : α) (f v : α) (s : AvGlut.AudioState α) :
    (AvGlut.AQCallback sin M_PI 100 (AvGlut.audio_beep f v s)).2[0]? = some 0 ∧
    (∀ i : Nat, i < 100 →
      (AvGlut.env (AvGlut.AQCallback sin M_PI i (AvGlut.audio_beep f v s)).1.samples_left : α)
        = (i : α) / 200 ∧
      (AvGlut.AQCallback sin M_PI 100 (AvGlut.audio_beep f v s)).2[i]?
        = some (double_to_int (AvGlut.sample_value sin
            (AvGlut.AQCallback sin M_PI (i + 1) (AvGlut.audio_beep f v s)).1.phase v
            ((i : α) / 200)))) ∧
    (∀ i j : Nat, i < j → j < 100 →
      (AvGlut.env (AvGlut.AQCallback sin M_PI i (AvGlut.audio_beep f v s)).1.samples_left : α)
        < AvGlut.env (AvGlut.AQCallback sin M_PI j (AvGlut.audio_beep f v s)).1.samples_left) := by
  have henv : ∀ i : Nat, i < 100 →
      (AvGlut.env (AvGlut.AQCallback sin M_PI i (AvGlut.audio_beep f v s)).1.samples_left : α)
        = (i : α) / 200 := by
    intro i hi
    have h := AvGlut.loop_after_beep sin M_PI
      ((2 * M_PI * (AvGlut.audio_beep f v s).freq) / sr) f v s i (by omega)
    unfold AvGlut.AQCallback
    rw [h.1]
    exact AvGlut.env_attack i (by omega)
  have hsample : ∀ i : Nat, i < 100 →
      (AvGlut.AQCallback sin M_PI 100 (AvGlut.audio_beep f v s)).2[i]?
        = some (double_to_int (AvGlut.sample_value sin
            (AvGlut.AQCallback sin M_PI (i + 1) (AvGlut.audio_beep f v s)).1.phase v
            ((i : α) / 200))) := by
    intro i hi
    have h := AvGlut.sample_after_beep sin M_PI
      ((2 * M_PI * (AvGlut.audio_beep f v s).freq) / sr) f v s 100 i hi (by omega)
    have he := henv i hi
    unfold AvGlut.AQCallback at he ⊢
    rw [h, he]
  refine ⟨?_, fun i hi => ⟨henv i hi, hsample i hi⟩, ?_⟩
  · rw [hsample 0 (by omega)]
    simp [AvGlut.sample_value, double_to_int_zero]
  · intro i j hij hj
    rw [henv i (by omega), henv j hj]
    have : (i : α) < (j : α) := by exact_mod_cast hij
    exact div_lt_div_of_pos_right this (by norm_num)

/-- Witness for C8: `audio_beep(220.0, 0.4)` on the state left by `audio_init`; the envelope
of sample 50 is below that of sample 99. -/
theorem beep_attack_ramp_witness :
    (AvGlut.env (AvGlut.AQCallback Real.sin Real.pi 50
        (AvGlut.audio_beep 220 0.4 AvGlut.audio_init)).1.samples_left : ℝ)
      < AvGlut.env (AvGlut.AQCallback Real.sin Real.pi 99
        (AvGlut.audio_beep 220 0.4 AvGlut.audio_init)).1.samples_left :=
  (beep_attack_ramp Real.sin Real.pi 220 0.4 AvGlut.audio_init).2.2 50 99
    (by decide) (by decide)

/-- C9: in `av_glut.c` the envelope as a function of `age = 5292 - samples_left`, for
`0 <= age <= 5291`, is `age/200` for `age < 200`, `1.0` for `200 <= age <= 5092` and
`samples_left/200` for `samples_left < 200`; the attack-end value at `age = 200` is the
sustain value `1.0`, and the envelopes of two consecutive samples of a note differ by at
most `1/200`. -/
theorem av_glut_env_shape :
    (∀ age : Int, 0 ≤ age → age ≤ 5291 →
      (age < 200 → (AvGlut.env (5292 - age) : α) = (age : α) / 200) ∧
      (200 ≤ age → age ≤ 5092 → (AvGlut.env (5292 - age) : α) = 1) ∧
      (5292 - age < 200 →
        (AvGlut.env (5292 - age) : α) = ((5292 - age : Int) : α) / 200)) ∧
    (AvGlut.env (5292 - 200) : α) = 1 ∧
    (∀ age : Int, 0 ≤ age → age + 1 ≤ 5291 →
      |(AvGlut.env (5292 - (age + 1)) : α) - AvGlut.env (5292 - age)| ≤ 1 / 200) := by
  refine ⟨?_, ?_, fun age h0 h1 => AvGlut.env_step age h0 h1⟩
  · intro age h0 h1
    refine ⟨?_, ?_, ?_⟩
    · intro h; rw [AvGlut.env_age, if_pos h]
    · intro h2 h3; rw [AvGlut.env_age, if_neg (by omega), if_neg (by omega)]
    · intro h; rw [AvGlut.env_age, if_neg (by omega), if_pos (by omega)]; push_cast; rfl
  · rw [AvGlut.env_age, if_neg (by omega), if_neg (by omega)]

/-- Witness for C9: the last attack sample and the first sustain sample of a note,
`age = 199` and `age = 200`, have envelopes that differ by at most `1/200`. -/
theorem av_glut_env_shape_witness :
    |(AvGlut.env (5292 - (199 + 1)) : ℚ) - AvGlut.env (5292 - 199)| ≤ 1 / 200 :=
  (av_glut_env_shape (α := ℚ)).2.2 199 (by decide) (by decide)

/-- C10: in `demo.c` the envelope as a function of `age = 11025 - samples_left` is `age/100`
for `age < 100` and `exp(-15*(age-100)/44100)` for `age >= 100`; at `age = 100` it is exactly
`1.0` and at `age = 99` it is `0.99`; for every age in `100..11024` it lies in `(0, 1]` and
it is non-increasing in age (`exp` the real exponential). -/
theorem demo_env_shape :
    (∀ age : Int, Demo.env Real.exp (11025 - age)
      = if age < 100 then (age : ℝ) / 100 else Real.exp (-15 * ((age : ℝ) - 100) / 44100)) ∧
    Demo.env Real.exp (11025 - 100) = 1 ∧
    Demo.env Real.exp (11025 - 99) = 0.99 ∧
    (∀ age : Int, 100 ≤ age → age ≤ 11024 →
      0 < Demo.env Real.exp (11025 - age) ∧ Demo.env Real.exp (11025 - age) ≤ 1) ∧
    (∀ a b : Int, 100 ≤ a → a ≤ b → b ≤ 11024 →
      Demo.env Real.exp (11025 - b) ≤ Demo.env Real.exp (11025 - a)) := by
  have hdecay : ∀ age : Int, 100 ≤ age →
      Demo.env Real.exp (11025 - age) = Real.exp (-15 * (((age : ℝ) - 100) / 44100)) := by
    intro age h
    rw [Demo.demo_env_age, if_neg (by omega)]
  refine ⟨?_, ?_, ?_, ?_, ?_⟩
  · intro age
    rw [Demo.demo_env_age]
    split_ifs
    · rfl
    · congr 1; ring
  · rw [hdecay 100 (le_refl _)]; norm_num
  · rw [Demo.demo_env_age, if_pos (by omega)]; norm_num
  · intro age h0 _
    rw [hdecay age h0]
    refine ⟨Real.exp_pos _, Real.exp_le_one_iff.mpr ?_⟩
    have : (100 : ℝ) ≤ (age : ℝ) := by exact_mod_cast h0
    have h2 : 0 ≤ ((age : ℝ) - 100) / 44100 := by apply div_nonneg <;> linarith
    linarith
  · intro a b ha hab _
    rw [hdecay a ha, hdecay b (by omega)]
    apply Real.exp_le_exp.mpr
    have : (a : ℝ) ≤ (b : ℝ) := by exact_mod_cast hab
    have h2 : ((a : ℝ) - 100) / 44100 ≤ ((b : ℝ) - 100) / 44100 := by
      apply div_le_div_of_nonneg_right <;> linarith
    linarith

/-- Witness for C10: the envelope at the last sample of a note, `age = 11024`, is no larger
than at the end of the attack, `age = 100`. -/
theorem demo_env_shape_witness :
    Demo.env Real.exp (11025 - 11024) ≤ Demo.env Real.exp (11025 - 100) :=
  demo_env_shape.2.2.2.2 100 11024 (by decide) (by decide) (by decide)

/-- C11: in `av_glut.c`, for every scale index `k >= 0`,
`note_minor_pent_step(k) = 220 * 2^(k div 5) * 2^(st[k mod 5]/12)` with `st = [0,3,5,7,10]`
(the formula `base * 2^octave * 2^(semitone/12)` of the specification); the semitone pattern
has period 5 and `note_minor_pent_step(k+5) = 2 * note_minor_pent_step(k)` (`pow` the real
power function). -/
theorem note_minor_pent_step_formula (k : Int) (hk : 0 ≤ k) :
    AvGlut.note_minor_pent_step (fun x y : ℝ => x ^ y) k
      = some (220 * 2 ^ (k / 5).toNat
          * (2 : ℝ) ^ (((st.getD (k % 5).toNat 0 : Int) : ℝ) / 12)) ∧
    AvGlut.note_minor_pent_step (fun x y : ℝ => x ^ y) k
      = some (spec_frequency (fun x y : ℝ => x ^ y) 220 (k / 5) (st.getD (k % 5).toNat 0)) ∧
    st = [0, 3, 5, 7, 10] ∧
    st.getD ((k + 5) % 5).toNat 0 = st.getD (k % 5).toNat 0 ∧
    AvGlut.note_minor_pent_step (fun x y : ℝ => x ^ y) (k + 5)
      = (AvGlut.note_minor_pent_step (fun x y : ℝ => x ^ y) k).map (fun f => 2 * f) := by
  have e5 : (k + 5) % 5 = k % 5 := by omega
  have d5 : (k + 5) / 5 = k / 5 + 1 := by omega
  refine ⟨?_, ?_, rfl, by rw [e5], ?_⟩
  · rw [note_minor_pent_step_eq _ k hk, rpow_two_octave (k / 5) (by omega)]
  · rw [note_minor_pent_step_eq _ k hk]
    rfl
  · rw [note_minor_pent_step_eq _ k hk, note_minor_pent_step_eq _ (k + 5) (by omega), e5, d5]
    simp only [Option.map_some']
    rw [rpow_two_next_octave]
    congr 1
    ring

/-- Witness for C11: the scale index `k = 7` (second octave, third degree). -/
theorem note_minor_pent_step_formula_witness :
    AvGlut.note_minor_pent_step (fun x y : ℝ => x ^ y) (7 + 5)
      = (AvGlut.note_minor_pent_step (fun x y : ℝ => x ^ y) 7).map (fun f => 2 * f) :=
  (note_minor_pent_step_formula 7 (by decide)).2.2.2.2

/-- C12 as stated fails: with the real power function `note_minor_pent_step(0) = 220` and
`note_minor_pent_step(5) = 440`, so `note_minor_pent_step(0)` is not
`2 * note_minor_pent_step(5)`. -/
theorem note_not_twice_next_octave :
    AvGlut.note_minor_pent_step (fun x y : ℝ => x ^ y) 0 = some 220 ∧
    AvGlut.note_minor_pent_step (fun x y : ℝ => x ^ y) (0 + 5) = some 440 ∧
    (220 : ℝ) ≠ 2 * 440 := by
  refine ⟨?_, ?_, by norm_num⟩
  · rw [note_minor_pent_step_eq _ 0 (le_refl 0)]
    norm_num [st]
  · rw [note_minor_pent_step_eq _ (0 + 5) (by decide)]
    norm_num [st]

/-- C12 (amended): in `av_glut.c`, for every scale index `i >= 0`,
`frequencyAt(i + 5) = 2 * frequencyAt(i)`, that is
`note_minor_pent_step(i) = note_minor_pent_step(i+5) / 2`. -/
theorem note_half_of_next_octave (i : Int) (hi : 0 ≤ i) :
    AvGlut.note_minor_pent_step (fun x y : ℝ => x ^ y) i
      = (AvGlut.note_minor_pent_step (fun x y : ℝ => x ^ y) (i + 5)).map (fun f => f / 2) := by
  have e5 : (i + 5) % 5 = i % 5 := by omega
  have d5 : (i + 5) / 5 = i / 5 + 1 := by omega
  rw [note_minor_pent_step_eq _ i hi, note_minor_pent_step_eq _ (i + 5) (by omega), e5, d5]
  simp only [Option.map_some']
  rw [rpow_two_next_octave]
  congr 1
  ring

/-- Witness for C12 (amended): the scale index `i = 3`. -/
theorem note_half_of_next_octave_witness :
    AvGlut.note_minor_pent_step (fun x y : ℝ => x ^ y) 3
      = (AvGlut.note_minor_pent_step (fun x y : ℝ => x ^ y) (3 + 5)).map (fun f => f / 2) :=
  note_half_of_next_octave 3 (by decide)

/-- C13 as stated fails: with the real power function `get_funky_bass_note(0) = 55` and
`get_funky_bass_note(10) = 55`, so the frequency has not doubled after 10 index steps. -/
theorem funky_note_not_doubled :
    Demo.get_funky_bass_note (fun x y : ℝ => x ^ y) 0 = some 55 ∧
    Demo.get_funky_bass_note (fun x y : ℝ => x ^ y) (0 + 10) = some 55 ∧
    (55 : ℝ) ≠ 2 * 55 := by
  refine ⟨?_, ?_, by norm_num⟩
  · rw [get_funky_bass_note_eq _ 0 (le_refl 0)]
    norm_num [st]
  · rw [get_funky_bass_note_eq _ (0 + 10) (by decide)]
    norm_num [st]

/-- C13 (amended): in `demo.c`, for every scale index `k >= 0`, the frequency repeats every
10 index steps, `get_funky_bass_note(k+10) = get_funky_bass_note(k)`, because the octave is
`(k/5) % 2`; this holds for any power function. -/
theorem funky_note_period_ten {β : Type} [LinearOrderedField β] (pow : β → β → β) (k : Int)
    (hk : 0 ≤ k) :
    Demo.get_funky_bass_note pow (k + 10) = Demo.get_funky_bass_note pow k := by
  have e5 : (k + 10) % 5 = k % 5 := by omega
  have d5 : (k + 10) / 5 % 2 = k / 5 % 2 := by omega
  rw [get_funky_bass_note_eq pow k hk, get_funky_bass_note_eq pow (k + 10) (by omega), e5, d5]

/-- Witness for C13 (amended): the scale index `k = 4` with the real power function. -/
theorem funky_note_period_ten_witness :
    Demo.get_funky_bass_note (fun x y : ℝ => x ^ y) (4 + 10)
      = Demo.get_funky_bass_note (fun x y : ℝ => x ^ y) 4 :=
  funky_note_period_ten (fun x y : ℝ => x ^ y) 4 (by decide)

/-- C14 as stated fails: in `av_glut.c`, from `phase = pi` (inside `[0, 2*pi)`) with
`freq = 22050`, so that `step = pi` (inside `[0, 2*pi)`), one sounding sample leaves
`phase = 2*pi`, which is not below `2*pi`: the test `phase > 2*M_PI` does not wrap it. -/
theorem phase_reaches_two_pi :
    (0 ≤ Real.pi ∧ Real.pi < 2 * Real.pi) ∧
    (0 ≤ (2 * Real.pi * 22050) / (sr : ℝ) ∧ (2 * Real.pi * 22050) / (sr : ℝ) < 2 * Real.pi) ∧
    (AvGlut.AQCallback Real.sin Real.pi 1 ⟨Real.pi, 22050, 0.4, 1⟩).1.phase = 2 * Real.pi ∧
    ¬ (AvGlut.AQCallback Real.sin Real.pi 1 ⟨Real.pi, 22050, 0.4, 1⟩).1.phase < 2 * Real.pi := by
  have hpi := Real.pi_pos
  have hstep : (2 * Real.pi * 22050) / (sr : ℝ) = Real.pi := by
    unfold sr; field_simp; ring
  have hphase : (AvGlut.AQCallback Real.sin Real.pi 1 ⟨Real.pi, 22050, 0.4, 1⟩).1.phase
      = 2 * Real.pi := by
    show AvGlut.advance Real.pi Real.pi ((2 * Real.pi * 22050) / (sr : ℝ)) = 2 * Real.pi
    rw [hstep]
    unfold AvGlut.advance
    simp only
    rw [if_neg (by linarith)]
    ring
  refine ⟨⟨hpi.le, by linarith⟩, ?_, hphase, ?_⟩
  · rw [hstep]; exact ⟨hpi.le, by linarith⟩
  · rw [hphase]; exact lt_irrefl _

/-- C14 (amended): for every state with `phase` in `[0, 2*pi]` and a per-sample step with
`0 <= step < 2*pi`, after an `AQCallback` pass of any length the phase is again in the closed
interval `[0, 2*pi]`, in both variants; in `demo.c`, when moreover `2*step < 2*pi` and
`mod_phase` is in `[0, 2*pi]`, so is `mod_phase` after the pass. -/
theorem AQCallback_phase_bounded (sin exp : α → α) (M_PI : α) (N : Nat)
    (s : AvGlut.AudioState α) (t : Demo.AudioState α)
    (hs : 0 ≤ s.phase ∧ s.phase ≤ 2 * M_PI)
    (hsstep : 0 ≤ (2 * M_PI * s.freq) / sr ∧ (2 * M_PI * s.freq) / sr < 2 * M_PI)
    (ht : 0 ≤ t.phase ∧ t.phase ≤ 2 * M_PI)
    (htstep : 0 ≤ (2 * M_PI * t.freq) / sr ∧ (2 * M_PI * t.freq) / sr < 2 * M_PI) :
    (0 ≤ (AvGlut.AQCallback sin M_PI N s).1.phase ∧
      (AvGlut.AQCallback sin M_PI N s).1.phase ≤ 2 * M_PI) ∧
    (0 ≤ (Demo.AQCallback sin exp M_PI N t).1.phase ∧
      (Demo.AQCallback sin exp M_PI N t).1.phase ≤ 2 * M_PI) ∧
    ((2 * M_PI * t.freq) / sr * 2 < 2 * M_PI →
      0 ≤ t.mod_phase ∧ t.mod_phase ≤ 2 * M_PI →
      0 ≤ (Demo.AQCallback sin exp M_PI N t).1.mod_phase ∧
      (Demo.AQCallback sin exp M_PI N t).1.mod_phase ≤ 2 * M_PI) := by
  refine ⟨?_, ?_, ?_⟩
  · exact AvGlut.loop_phase_closed sin M_PI _ hsstep.1 hsstep.2 N s hs
  · exact Demo.demo_loop_phase_closed sin exp M_PI _ _ htstep.1 htstep.2 N t ht
  · intro hm htm
    exact Demo.demo_loop_mod_phase_closed sin exp M_PI _ _
      (mul_nonneg htstep.1 (by norm_num)) hm N t htm

/-- Witness for C14 (amended): both variants right after a trigger at 220 Hz, with the real
`pi`, for a pass over 1024 samples. -/
theorem AQCallback_phase_bounded_witness :
    (0 ≤ (AvGlut.AQCallback Real.sin Real.pi 1024 ⟨0, 220, 0.4, 5292⟩).1.phase ∧
      (AvGlut.AQCallback Real.sin Real.pi 1024 ⟨0, 220, 0.4, 5292⟩).1.phase ≤ 2 * Real.pi) ∧
    (0 ≤ (Demo.AQCallback Real.sin Real.exp Real.pi 1024 ⟨0, 220, 0.5, 11025, 0⟩).1.phase ∧
      (Demo.AQCallback Real.sin Real.exp Real.pi 1024 ⟨0, 220, 0.5, 11025, 0⟩).1.phase
        ≤ 2 * Real.pi) ∧
    ((2 * Real.pi * 220) / sr * 2 < 2 * Real.pi →
      0 ≤ (0 : ℝ) ∧ (0 : ℝ) ≤ 2 * Real.pi →
      0 ≤ (Demo.AQCallback Real.sin Real.exp Real.pi 1024 ⟨0, 220, 0.5, 11025, 0⟩).1.mod_phase ∧
      (Demo.AQCallback Real.sin Real.exp Real.pi 1024 ⟨0, 220, 0.5, 11025, 0⟩).1.mod_phase
        ≤ 2 * Real.pi) :=
  AQCallback_phase_bounded Real.sin Real.exp Real.pi 1024 ⟨0, 220, 0.4, 5292⟩
    ⟨0, 220, 0.5, 11025, 0⟩
    ⟨le_refl _, by have := Real.pi_pos; show (0 : ℝ) ≤ 2 * Real.pi; linarith⟩
    (by
      have := Real.pi_pos
      have e : (2 * Real.pi * 220) / (sr : ℝ) = Real.pi * (440 / 44100) := by
        unfold sr; ring
      show 0 ≤ (2 * Real.pi * 220) / (sr : ℝ) ∧ (2 * Real.pi * 220) / (sr : ℝ) < 2 * Real.pi
      rw [e]
      constructor <;> nlinarith)
    ⟨le_refl _, by have := Real.pi_pos; show (0 : ℝ) ≤ 2 * Real.pi; linarith⟩
    (by
      have := Real.pi_pos
      have e : (2 * Real.pi * 220) / (sr : ℝ) = Real.pi * (440 / 44100) := by
        unfold sr; ring
      show 0 ≤ (2 * Real.pi * 220) / (sr : ℝ) ∧ (2 * Real.pi * 220) / (sr : ℝ) < 2 * Real.pi
      rw [e]
      constructor <;> nlinarith)

/-- C15 (code): the trigger test `rand() % 10 > 2` is true for the residues `3..9` only,
that is for 7 of the 10 residues `0..9`, and false for a draw of 2. -/
theorem slap_decision_seven_of_ten :
    (List.range 10).filter (fun r => Demo.slap_decision (r : Int)) = [3, 4, 5, 6, 7, 8, 9] ∧
    ((List.range 10).filter (fun r => Demo.slap_decision (r : Int))).length = 7 ∧
    Demo.slap_decision 2 = false := by
  decide

/-- C18: `audio_shutdown` with `g_q = NULL` issues no device call and changes nothing; with
`g_q` non-null it issues `AudioQueueStop` and then `AudioQueueDispose`, in that order, and
sets `g_q` to `NULL`; calling it twice has the same effect as calling it once (both
programs). -/
theorem audio_shutdown_idempotent (d : Device) :
    ((d.g_q = 0 → AvGlut.audio_shutdown d = d) ∧
      (d.g_q ≠ 0 → AvGlut.audio_shutdown d
        = ⟨0, d.calls ++ [DeviceCall.AudioQueueStop d.g_q true,
            DeviceCall.AudioQueueDispose d.g_q true]⟩) ∧
      AvGlut.audio_shutdown (AvGlut.audio_shutdown d) = AvGlut.audio_shutdown d) ∧
    ((d.g_q = 0 → Demo.audio_shutdown d = d) ∧
      (d.g_q ≠ 0 → Demo.audio_shutdown d
        = ⟨0, d.calls ++ [DeviceCall.AudioQueueStop d.g_q true,
            DeviceCall.AudioQueueDispose d.g_q true]⟩) ∧
      Demo.audio_shutdown (Demo.audio_shutdown d) = Demo.audio_shutdown d) := by
  refine ⟨⟨?_, ?_, ?_⟩, ⟨?_, ?_, ?_⟩⟩
  · intro h; unfold AvGlut.audio_shutdown; rw [if_neg (by simp [h])]
  · intro h; unfold AvGlut.audio_shutdown; rw [if_pos h]
  · unfold AvGlut.audio_shutdown
    by_cases h : d.g_q ≠ 0
    · simp [h]
    · simp [h]
  · intro h; unfold Demo.audio_shutdown; rw [if_neg (by simp [h])]
  · intro h; unfold Demo.audio_shutdown; rw [if_pos h]
  · unfold Demo.audio_shutdown
    by_cases h : d.g_q ≠ 0
    · simp [h]
    · simp [h]

/-- Witness for C18: a live handle `7` with no earlier device call is stopped, then
disposed, and the handle is cleared. -/
theorem audio_shutdown_idempotent_witness :
    AvGlut.audio_shutdown ⟨7, []⟩
      = ⟨0, [] ++ [DeviceCall.AudioQueueStop 7 true, DeviceCall.AudioQueueDispose 7 true]⟩ :=
  (audio_shutdown_idempotent ⟨7, []⟩).1.2.1 (by decide)

/-- C19: for every state and every `N`, an `AQCallback` pass, in either variant, leaves
`freq` and `vol` equal to their values before the pass. -/
theorem AQCallback_frame (sin exp : α → α) (M_PI : α) (N : Nat)
    (s : AvGlut.AudioState α) (t : Demo.AudioState α) :
    ((AvGlut.AQCallback sin M_PI N s).1.freq = s.freq ∧
      (AvGlut.AQCallback sin M_PI N s).1.vol = s.vol) ∧
    ((Demo.AQCallback sin exp M_PI N t).1.freq = t.freq ∧
      (Demo.AQCallback sin exp M_PI N t).1.vol = t.vol) := by
  have h1 := AvGlut.loop_vol sin M_PI ((2 * M_PI * s.freq) / sr) N s
  have h2 := Demo.demo_loop_vol sin exp M_PI ((2 * M_PI * t.freq) / sr)
    ((2 * M_PI * t.freq) / sr * 2) N t
  exact ⟨⟨h1.2, h1.1⟩, ⟨h2.2, h2.1⟩⟩

/-- C20: in `demo.c` the carrier sample is hard-clipped to `[-0.8, 0.8]`; for every state
with `0 <= vol <= 1` and `0 < samples_left <= 11025` and any phases the value
`raw_wave*32767*vol*env` has magnitude at most `0.8*32767*vol*env`, and every sample written
by an `AQCallback` pass has magnitude at most 26213, inside the `int16_t` range (`exp` the
real exponential, `sin` any function). -/
theorem demo_sample_clipped (sin : ℝ → ℝ) (M_PI : ℝ) (s : Demo.AudioState ℝ)
    (hv0 : 0 ≤ s.vol) (hv1 : s.vol ≤ 1)
    (hl0 : 0 < s.samples_left) (hl1 : s.samples_left ≤ 11025) :
    (∀ x : ℝ, -0.8 ≤ Demo.hard_clip x ∧ Demo.hard_clip x ≤ 0.8) ∧
    (∀ phase mod_phase : ℝ,
      |Demo.sample_value sin phase mod_phase s.vol (Demo.env Real.exp s.samples_left)|
        ≤ 0.8 * 32767 * s.vol * Demo.env Real.exp s.samples_left) ∧
    (∀ (N : Nat), ∀ z ∈ (Demo.AQCallback sin Real.exp M_PI N s).2,
      |z| ≤ 26213 ∧ in_int16 z) := by
  have he := Demo.demo_env_bounds s.samples_left hl0 hl1
  refine ⟨fun x => abs_le.mp (Demo.hard_clip_abs_le x), ?_, ?_⟩
  · intro phase mod_phase
    exact Demo.demo_sample_value_abs_le sin phase mod_phase s.vol _ hv0 he.1
  · intro N z hz
    have h := Demo.demo_loop_out_abs_le sin M_PI ((2 * M_PI * s.freq) / sr)
      ((2 * M_PI * s.freq) / sr * 2) N s hv0 hv1 hl1 z hz
    have h2 := abs_le.mp h
    exact ⟨h, by unfold in_int16; omega⟩

/-- Witness for C20: the state right after `audio_slap(55.0)` on the initial state, with
the real sine. -/
theorem demo_sample_clipped_witness :
    (∀ x : ℝ, -0.8 ≤ Demo.hard_clip x ∧ Demo.hard_clip x ≤ 0.8) ∧
    (∀ phase mod_phase : ℝ,
      |Demo.sample_value Real.sin phase mod_phase 0.5 (Demo.env Real.exp 11025)|
        ≤ 0.8 * 32767 * 0.5 * Demo.env Real.exp 11025) ∧
    (∀ (N : Nat), ∀ z ∈ (Demo.AQCallback Real.sin Real.exp Real.pi N ⟨0, 55, 0.5, 11025, 0⟩).2,
      |z| ≤ 26213 ∧ in_int16 z) :=
  demo_sample_clipped Real.sin Real.pi ⟨0, 55, 0.5, 11025, 0⟩
    (by norm_num) (by norm_num) (by decide) (by decide)

/-- C22: in `demo.c`, every sounding sample advances the carrier by `step` and the modulator
by `2*step`, each followed by at most one subtraction of `2*pi`; hence, starting from the
state left by `audio_slap` and over any number of `AQCallback` passes with no trigger in
between, `mod_phase - 2*phase` is an integer multiple of `2*pi`. -/
theorem mod_phase_two_to_one (sin exp : α → α) (M_PI : α) (f : α) (s : Demo.AudioState α)
    (Ns : List Nat) :
    (Demo.audio_slap f s).phase = 0 ∧ (Demo.audio_slap f s).mod_phase = 0 ∧
    (∀ (u : Demo.AudioState α) (step : α), ∃ a b : Int, (a = 0 ∨ a = 1) ∧ (b = 0 ∨ b = 1) ∧
      (Demo.sounding sin exp M_PI step (step * 2) u).1.phase
        = u.phase + step - (a : α) * (2 * M_PI) ∧
      (Demo.sounding sin exp M_PI step (step * 2) u).1.mod_phase
        = u.mod_phase + 2 * step - (b : α) * (2 * M_PI)) ∧
    (∃ n : Int,
      (Demo.AQCallback_passes sin exp M_PI Ns (Demo.audio_slap f s)).mod_phase
        - 2 * (Demo.AQCallback_passes sin exp M_PI Ns (Demo.audio_slap f s)).phase
        = (n : α) * (2 * M_PI)) := by
  refine ⟨rfl, rfl, fun u step => Demo.demo_sounding_steps sin exp M_PI step u, ?_⟩
  apply Demo.demo_passes_rel
  refine ⟨0, ?_⟩
  show (0 : α) - 2 * 0 = ((0 : Int) : α) * (2 * M_PI)
  simp

/-- C21 (code): the claim fails on a note the scheduler itself triggers. In second 40 of the
run `display` calls `audio_beep(note_minor_pent_step(40), 0.4)` with
`note_minor_pent_step(40) = 220 * 2^8 = 56320` Hz, above the sample rate; the per-sample
phase increment `2*pi*56320/44100` is not below `2*pi`, the single subtraction of `2*pi` no
longer wraps the phase, and four samples after that trigger the phase is
`4*(step - 2*pi)`, which is above `2*pi`. -/
theorem note_step_not_below_two_pi :
    ((0 : Int) ≤ 40 ∧ (40 : Int) ≤ 74) ∧
    AvGlut.note_minor_pent_step (fun x y : ℝ => x ^ y) 40 = some 56320 ∧
    AvGlut.display (fun x y : ℝ => x ^ y) 40 ⟨AvGlut.audio_init, 39, 40⟩
      = Poll.next true ⟨AvGlut.audio_beep 56320 0.4 AvGlut.audio_init, 40, 41⟩ ∧
    ¬ ((2 * Real.pi * 56320) / (sr : ℝ) < 2 * Real.pi) ∧
    (AvGlut.AQCallback Real.sin Real.pi 4
        (AvGlut.audio_beep 56320 0.4 AvGlut.audio_init)).1.phase
      = 4 * ((2 * Real.pi * 56320) / (sr : ℝ) - 2 * Real.pi) ∧
    2 * Real.pi < (AvGlut.AQCallback Real.sin Real.pi 4
        (AvGlut.audio_beep 56320 0.4 AvGlut.audio_init)).1.phase := by
  have hpi := Real.pi_pos
  have hnote : AvGlut.note_minor_pent_step (fun x y : ℝ => x ^ y) 40 = some 56320 := by
    rw [note_minor_pent_step_eq _ 40 (by decide)]
    norm_num [st]
  have hstep : 2 * Real.pi < (2 * Real.pi * 56320) / (sr : ℝ) := by
    unfold sr
    rw [lt_div_iff₀ (by norm_num)]
    nlinarith
  have hphase : (AvGlut.AQCallback Real.sin Real.pi 4
        (AvGlut.audio_beep 56320 0.4 AvGlut.audio_init)).1.phase
      = 4 * ((2 * Real.pi * 56320) / (sr : ℝ) - 2 * Real.pi) := by
    have h := AvGlut.loop_phase_drift Real.sin Real.pi ((2 * Real.pi * 56320) / (sr : ℝ))
      hstep 4 (AvGlut.audio_beep 56320 0.4 AvGlut.audio_init) (le_refl 0)
      (by rw [(audio_beep_samples_left (56320 : ℝ) 0.4 AvGlut.audio_init)]; decide)
    have e : (AvGlut.audio_beep (56320 : ℝ) 0.4 AvGlut.audio_init).phase = 0 := rfl
    rw [e] at h
    unfold AvGlut.AQCallback
    show (AvGlut.AQCallback_loop Real.sin Real.pi ((2 * Real.pi * 56320) / (sr : ℝ)) 4
      (AvGlut.audio_beep 56320 0.4 AvGlut.audio_init)).1.phase = _
    rw [h]
    push_cast
    ring
  refine ⟨by decide, hnote, ?_, not_lt.mpr hstep.le, hphase, ?_⟩
  · unfold AvGlut.display
    have h75 : ¬ ((40 : ℝ) > 75) := by norm_num
    have hsec : double_to_int (floor_d (40 : ℝ)) = 40 := by
      rw [double_to_int_floor_d]
      have e : (40 : ℝ) = ((40 : Int) : ℝ) := by norm_num
      rw [e, Int.floor_intCast]
    simp only [hsec, hnote]
    rw [if_neg h75, if_pos (by decide)]
    rfl
  · rw [hphase]
    unfold sr
    have e : (2 * Real.pi * 56320) / (44100 : ℝ) = Real.pi * (112640 / 44100) := by ring
    rw [e]
    nlinarith

/-- C23: in `demo.c`, for every draw `r = rand() >= 0` the scale index `k = r % 15` lies in
`0..14`, the read `st[k % 5]` in `get_funky_bass_note` is in bounds (index in `0..4`), the
resulting frequency lies in `[55, 110*2^(10/12)]`, below 220 Hz, and both the carrier step
and the doubled modulator step are strictly between `0` and `2*pi`. -/
theorem funky_note_in_range (r : Nat) :
    (0 ≤ Int.tmod (r : Int) 15 ∧ Int.tmod (r : Int) 15 ≤ 14) ∧
    (0 ≤ Int.tmod (Int.tmod (r : Int) 15) 5 ∧ Int.tmod (Int.tmod (r : Int) 15) 5 ≤ 4) ∧
    (∃ d : Int, st_read (Int.tmod (Int.tmod (r : Int) 15) 5) = some d) ∧
    (∃ f : ℝ,
      Demo.get_funky_bass_note (fun x y : ℝ => x ^ y) (Int.tmod (r : Int) 15) = some f ∧
      55 ≤ f ∧ f ≤ 110 * (2 : ℝ) ^ ((10 : ℝ) / 12) ∧ f < 220 ∧
      (0 < (2 * Real.pi * f) / (sr : ℝ) ∧ (2 * Real.pi * f) / (sr : ℝ) < 2 * Real.pi) ∧
      (0 < (2 * Real.pi * f) / (sr : ℝ) * 2 ∧
        (2 * Real.pi * f) / (sr : ℝ) * 2 < 2 * Real.pi)) := by
  have hr : (0 : Int) ≤ (r : Int) := Int.natCast_nonneg r
  have hk : Int.tmod (r : Int) 15 = (r : Int) % 15 := Int.tmod_eq_emod hr (by decide)
  rw [hk]
  have hk0 : (0 : Int) ≤ (r : Int) % 15 := by omega
  have hk1 : (r : Int) % 15 ≤ 14 := by omega
  have hi : Int.tmod ((r : Int) % 15) 5 = (r : Int) % 15 % 5 := Int.tmod_eq_emod hk0 (by decide)
  rw [hi]
  have hidx := st_entry_bounds ((r : Int) % 15 % 5) (by omega) (by omega)
  have hsemi := rpow_semitone_bounds (st.getD ((r : Int) % 15 % 5).toNat 0) hidx.1 hidx.2.1
  have h10 := rpow_two_ten_twelfths_lt
  have hoct : (1 : ℝ) ≤ (2 : ℝ) ^ ((((r : Int) % 15 / 5 % 2 : Int) : Int) : ℝ) ∧
      (2 : ℝ) ^ ((((r : Int) % 15 / 5 % 2 : Int) : Int) : ℝ) ≤ 2 := by
    have ho : (r : Int) % 15 / 5 % 2 = 0 ∨ (r : Int) % 15 / 5 % 2 = 1 := by omega
    rcases ho with ho | ho <;> rw [ho] <;> norm_num
  have hf0 : 55 ≤ 55 * (2 : ℝ) ^ ((((r : Int) % 15 / 5 % 2 : Int) : Int) : ℝ)
      * (2 : ℝ) ^ (((st.getD ((r : Int) % 15 % 5).toNat 0 : Int) : ℝ) / 12) := by
    nlinarith [hoct.1, hsemi.1]
  have hf1 : 55 * (2 : ℝ) ^ ((((r : Int) % 15 / 5 % 2 : Int) : Int) : ℝ)
      * (2 : ℝ) ^ (((st.getD ((r : Int) % 15 % 5).toNat 0 : Int) : ℝ) / 12)
      ≤ 110 * (2 : ℝ) ^ ((10 : ℝ) / 12) := by
    nlinarith [hoct.1, hoct.2, hsemi.1, hsemi.2.1]
  have hstep := step_range _ (by linarith) (by linarith :
    55 * (2 : ℝ) ^ ((((r : Int) % 15 / 5 % 2 : Int) : Int) : ℝ)
      * (2 : ℝ) ^ (((st.getD ((r : Int) % 15 % 5).toNat 0 : Int) : ℝ) / 12) < 44100)
  have hpi := Real.pi_pos
  refine ⟨⟨hk0, hk1⟩, ⟨by omega, by omega⟩,
    ⟨_, st_read_in_bounds _ (by omega) (by omega)⟩, _,
    get_funky_bass_note_eq _ _ hk0, hf0, hf1, by linarith, hstep, ?_, ?_⟩
  · linarith [hstep.1]
  · unfold sr
    rw [div_mul_eq_mul_div, div_lt_iff₀ (by norm_num)]
    nlinarith

end Claims
